import Mathlib

/-!
Verification of the layered scene model of the ArtBoardBuilder designer
(`client/src/pages/designer.tsx`).

The designer keeps a scene made of an optional image plus a list of text
elements; every element carries an integer `layer`.  The definitions below are
a shallow embedding of the React component state and of the handlers that
mutate it: `addTextBox`, `addTextElement`, `deleteTextBox`, `moveLayerUp`,
`moveLayerDown`, `moveImageLayerUp`, `moveImageLayerDown`, the compositor
`layerElements`, the center-anchored image transform, and the single/batch
export pipelines.  JavaScript numbers that hold coordinates are embedded as
`ℚ`, layers as `ℤ` (all layer arithmetic is integral), and the trigonometric
image transform as functions over `ℝ`.
-/

namespace ArtBoard

/-- The `textStroke` UI state: `"none" | "thin" | "thick"`. -/
inductive Stroke where
  | none
  | thin
  | thick
deriving DecidableEq, Repr

/-- `interface TextElement` from designer.tsx (lines 35-46). -/
structure TextElem where
  id : String
  content : String
  x : ℚ
  y : ℚ
  fontSize : ℚ
  color : String
  fontFamily : String
  strokeWidth : ℚ
  strokeColor : Option String
  layer : ℤ
deriving DecidableEq, Repr

/-- The component state of `FingerboardDesigner` that the scene model uses
(the `useState` hooks of designer.tsx, lines 60-94). -/
structure DesignerState where
  backgroundColor : String
  showGuides : Bool
  imageUrl : String
  imageScale : ℚ
  imageRotation : ℚ
  imageOpacity : ℚ
  imageFlipped : Bool
  imagePosX : ℚ
  imagePosY : ℚ
  imageLayer : ℤ
  textElements : List TextElem
  selectedTextId : Option String
  textInput : String
  textSize : ℚ
  textColor : String
  fontFamily : String
  textStroke : Stroke
  designName : String
deriving DecidableEq, Repr

/-- The initial state of the component (the `useState` initialisers). -/
def initState : DesignerState where
  backgroundColor := "#ffffff"
  showGuides := true
  imageUrl := ""
  imageScale := 100
  imageRotation := 0
  imageOpacity := 100
  imageFlipped := false
  imagePosX := 8
  imagePosY := 20
  imageLayer := 0
  textElements := []
  selectedTextId := Option.none
  textInput := ""
  textSize := 6
  textColor := "#0f172a"
  fontFamily := "Impact"
  textStroke := Stroke.none
  designName := ""

/-- The layer values of all live elements: every text element plus the image. -/
def allLayers (s : DesignerState) : List ℤ :=
  s.textElements.map (fun t => t.layer) ++ [s.imageLayer]

/-- `const maxLayer = textElements.length > 0 ? Math.max(...textElements.map(t => t.layer)) : -1`
(designer.tsx lines 116 and 355).  Note that it scans the text elements only. -/
def maxTextLayer (ts : List TextElem) : ℤ :=
  match (ts.map (fun t => t.layer)).max? with
  | some m => m
  | Option.none => -1

/-- `addTextBox` (designer.tsx lines 114-132).  The fresh element id
(`Date.now().toString()` in the source) is passed as a parameter. -/
def addTextBox (s : DesignerState) (newId : String) : DesignerState :=
  let maxLayer := maxTextLayer s.textElements
  let newText : TextElem :=
    { id := newId
      content := "New Text"
      x := 16
      y := 50
      fontSize := 6
      color := s.textColor
      fontFamily := s.fontFamily
      strokeWidth :=
        if s.textStroke = Stroke.none then 0
        else if s.textStroke = Stroke.thin then 1/2 else 1
      strokeColor := if s.textStroke = Stroke.none then Option.none else some "#ffffff"
      layer := maxLayer + 1 }
  { s with textElements := s.textElements ++ [newText]
           selectedTextId := some newId
           textInput := "New Text" }

/-- `addTextElement` (designer.tsx lines 345-372). -/
def addTextElement (s : DesignerState) (newId : String) : DesignerState :=
  if s.textInput.trim = "" then s
  else
    let maxLayer := maxTextLayer s.textElements
    let newElement : TextElem :=
      { id := newId
        content := s.textInput
        x := 16
        y := 105/2
        fontSize := s.textSize
        color := s.textColor
        fontFamily := s.fontFamily
        strokeWidth :=
          if s.textStroke = Stroke.none then 0
          else if s.textStroke = Stroke.thin then 3/10 else 3/5
        strokeColor := some (if s.textColor = "#ffffff" then "#000000" else "#ffffff")
        layer := maxLayer + 1 }
    { s with textElements := s.textElements ++ [newElement]
             selectedTextId := some newId
             textInput := "" }

/-- `deleteTextBox` (designer.tsx lines 135-141). -/
def deleteTextBox (s : DesignerState) (id : String) : DesignerState :=
  let s1 := { s with textElements := s.textElements.filter (fun t => decide (t.id ≠ id)) }
  if s.selectedTextId = some id then
    { s1 with selectedTextId := Option.none, textInput := "" }
  else s1

/-- The image-upload success handler only stores the returned URL
(`setImageUrl(publicURL)`, designer.tsx line 295); it does not touch
`imageLayer`. -/
def uploadImage (s : DesignerState) (url : String) : DesignerState :=
  { s with imageUrl := url }

/-- One entry of the `allElementLayers` array built by `moveLayerUp` /
`moveLayerDown`: `{ id, layer, type }`. -/
structure LayerRecord where
  id : String
  layer : ℤ
  type : String
deriving DecidableEq, Repr

/-- `[...prev.map(t => ({id: t.id, layer: t.layer, type: 'text'})), {id: 'image', layer: imageLayer, type: 'image'}]`
(designer.tsx lines 150 and 179). -/
def layerRecords (s : DesignerState) : List LayerRecord :=
  s.textElements.map (fun t => { id := t.id, layer := t.layer, type := "text" })
    ++ [{ id := "image", layer := s.imageLayer, type := "image" }]

/-- The per-element update applied by `moveLayerUp`/`moveLayerDown` (designer.tsx
lines 164-168 and 193-197): the target element takes `targetLayer`, any other
element currently holding `targetLayer` takes the target's old layer. -/
def swapTextMap (id : String) (targetLayer oldLayer : ℤ) (t : TextElem) : TextElem :=
  if t.id = id then { t with layer := targetLayer }
  else if t.layer = targetLayer ∧ t.id ≠ id then { t with layer := oldLayer }
  else t

/-- `moveLayerUp` (designer.tsx lines 144-170): swap the target text element
with the element (image included) holding the next higher layer. -/
def moveLayerUp (s : DesignerState) (id : String) : DesignerState :=
  match s.textElements.find? (fun t => decide (t.id = id)) with
  | Option.none => s
  | some element =>
    let higherLayers :=
      ((layerRecords s).filter (fun e => decide (element.layer < e.layer))).insertionSort
        (fun a b => a.layer ≤ b.layer)
    match higherLayers with
    | [] => s
    | nextHigher :: _ =>
      { s with
          imageLayer := if nextHigher.type = "image" then element.layer else s.imageLayer
          textElements := s.textElements.map (swapTextMap id nextHigher.layer element.layer) }

/-- `moveLayerDown` (designer.tsx lines 173-199): swap the target text element
with the element (image included) holding the next lower layer. -/
def moveLayerDown (s : DesignerState) (id : String) : DesignerState :=
  match s.textElements.find? (fun t => decide (t.id = id)) with
  | Option.none => s
  | some element =>
    let lowerLayers :=
      ((layerRecords s).filter (fun e => decide (e.layer < element.layer))).insertionSort
        (fun a b => b.layer ≤ a.layer)
    match lowerLayers with
    | [] => s
    | nextLower :: _ =>
      { s with
          imageLayer := if nextLower.type = "image" then element.layer else s.imageLayer
          textElements := s.textElements.map (swapTextMap id nextLower.layer element.layer) }

/-- The per-element update applied by `moveImageLayerUp`/`moveImageLayerDown`
(designer.tsx lines 225-227 and 245-247): the text element the image swaps
with takes the image's old layer. -/
def imageSwapMap (nid : String) (oldImageLayer : ℤ) (t : TextElem) : TextElem :=
  if t.id = nid then { t with layer := oldImageLayer } else t

/-- `moveImageLayerUp` (designer.tsx lines 211-228). -/
def moveImageLayerUp (s : DesignerState) : DesignerState :=
  let allElementLayers := s.textElements.map (fun t => (t.id, t.layer))
  let higherLayers :=
    (allElementLayers.filter (fun e => decide (s.imageLayer < e.2))).insertionSort
      (fun a b => a.2 ≤ b.2)
  match higherLayers with
  | [] => s
  | nextHigher :: _ =>
    { s with
        imageLayer := nextHigher.2
        textElements := s.textElements.map (imageSwapMap nextHigher.1 s.imageLayer) }

/-- `moveImageLayerDown` (designer.tsx lines 231-248). -/
def moveImageLayerDown (s : DesignerState) : DesignerState :=
  let allElementLayers := s.textElements.map (fun t => (t.id, t.layer))
  let lowerLayers :=
    (allElementLayers.filter (fun e => decide (e.2 < s.imageLayer))).insertionSort
      (fun a b => b.2 ≤ a.2)
  match lowerLayers with
  | [] => s
  | nextLower :: _ =>
    { s with
        imageLayer := nextLower.2
        textElements := s.textElements.map (imageSwapMap nextLower.1 s.imageLayer) }

/-- A reference to a live element: a text element (by id) or the image. -/
inductive ElemRef where
  | text (id : String)
  | image
deriving DecidableEq, Repr

/-- The layer currently assigned to a referenced element, if it is live. -/
def refLayer (s : DesignerState) : ElemRef → Option ℤ
  | ElemRef.text id => (s.textElements.find? (fun t => decide (t.id = id))).map (fun t => t.layer)
  | ElemRef.image => some s.imageLayer

/-- "move up" as exposed by the UI: text rows call `moveLayerUp(text.id)`,
the image control calls `moveImageLayerUp`. -/
def moveUp (s : DesignerState) : ElemRef → DesignerState
  | ElemRef.text id => moveLayerUp s id
  | ElemRef.image => moveImageLayerUp s

/-- "move down" as exposed by the UI. -/
def moveDown (s : DesignerState) : ElemRef → DesignerState
  | ElemRef.text id => moveLayerDown s id
  | ElemRef.image => moveImageLayerDown s

/-- Scene well-formedness: element ids are unique (the data model gives every
element a unique identifier) and layers are pairwise distinct. -/
def WellFormed (s : DesignerState) : Prop :=
  (s.textElements.map (fun t => t.id)).Nodup ∧ (allLayers s).Nodup

instance (s : DesignerState) : Decidable (WellFormed s) :=
  inferInstanceAs (Decidable (_ ∧ _))

/-- `interface LayerElement` (designer.tsx lines 48-52). -/
inductive LayerElement where
  | image (layer : ℤ)
  | text (layer : ℤ) (data : TextElem)
deriving DecidableEq, Repr

/-- The `layer` field of a `LayerElement`. -/
def LayerElement.layer : LayerElement → ℤ
  | LayerElement.image l => l
  | LayerElement.text l _ => l

/-- The scene compositor (designer.tsx lines 727-739): one entry per text
element, plus an image entry when an image is present, sorted ascending by
`layer` with a stable sort (JavaScript `Array.prototype.sort` is stable, as is
`List.insertionSort`: an element is inserted before the equal elements that
came later in the input). -/
def layerElements (s : DesignerState) : List LayerElement :=
  ((if s.imageUrl ≠ "" then [LayerElement.image s.imageLayer] else []) ++
      s.textElements.map (fun t => LayerElement.text t.layer t)).insertionSort
    (fun a b => a.layer ≤ b.layer)

/-! ### Anchor/Transform Calculator (designer.tsx lines 717-725)

The image is drawn as a 16×40 box scaled by `imageScale / 100`, translated so
that `imagePosition` is its center, with the SVG transform
`translate(imageX imageY) rotate(imageRotation w/2 h/2) scale(1 ±1)`.
An SVG transform list applies right-to-left to a point; the maps below embed
each primitive as a function `ℝ × ℝ → ℝ × ℝ`. -/

/-- `const imageWidth = 16 * (imageScale / 100)` (line 718). -/
noncomputable def imageWidth (imageScale : ℝ) : ℝ := 16 * (imageScale / 100)

/-- `const imageHeight = 40 * (imageScale / 100)` (line 719). -/
noncomputable def imageHeight (imageScale : ℝ) : ℝ := 40 * (imageScale / 100)

/-- `const imageX = imageCenterX - (imageWidth / 2)` (line 722). -/
noncomputable def imageTopLeftX (centerX imageScale : ℝ) : ℝ :=
  centerX - imageWidth imageScale / 2

/-- `const imageY = imageCenterY - (imageHeight / 2)` (line 723). -/
noncomputable def imageTopLeftY (centerY imageScale : ℝ) : ℝ :=
  centerY - imageHeight imageScale / 2

/-- SVG `rotate(deg cx cy)`: rotation by `deg` degrees about `(cx, cy)`. -/
noncomputable def rotatePoint (deg cx cy : ℝ) (p : ℝ × ℝ) : ℝ × ℝ :=
  let θ := deg * Real.pi / 180
  (cx + Real.cos θ * (p.1 - cx) - Real.sin θ * (p.2 - cy),
   cy + Real.sin θ * (p.1 - cx) + Real.cos θ * (p.2 - cy))

/-- SVG `scale(1 ${imageFlipped ? -1 : 1})` (line 725). -/
def flipPoint (flipped : Bool) (p : ℝ × ℝ) : ℝ × ℝ :=
  (p.1, if flipped then -p.2 else p.2)

/-- The full `imageTransform` of line 725 applied to a point of the image's
local coordinate box `[0, w] × [0, h]`. -/
noncomputable def imageTransformPoint (centerX centerY imageScale rotation : ℝ)
    (flipped : Bool) (p : ℝ × ℝ) : ℝ × ℝ :=
  let w := imageWidth imageScale
  let h := imageHeight imageScale
  let q := rotatePoint rotation (w / 2) (h / 2) (flipPoint flipped p)
  (imageTopLeftX centerX imageScale + q.1, imageTopLeftY centerY imageScale + q.2)

/-- The draw-space image of the local center of the image box: the center of
the drawn (transformed) bounding box, since the transform is affine. -/
noncomputable def drawCenter (centerX centerY imageScale rotation : ℝ)
    (flipped : Bool) : ℝ × ℝ :=
  imageTransformPoint centerX centerY imageScale rotation flipped
    (imageWidth imageScale / 2, imageHeight imageScale / 2)

/-! ### Export Pipeline (designer.tsx lines 464-523 and 526-608)

The export code mutates two pieces of shared scene state (`backgroundColor`,
`showGuides`), drives the fallible raster capture, and (for batch export)
fills a JSZip archive.  The embedding keeps exactly that observable state; the
fallible capture (`img.onerror` / `canvas.toBlob` returning `null`) is an
oracle: `captureOk` for the single export, `capture : Nat → Bool` per loop
iteration for the batch. -/

/-- Observable outcome of the single-export mutation (lines 464-523). -/
structure SingleExportOutcome where
  showGuides : Bool
  downloaded : Bool
  errorReported : Bool
deriving DecidableEq, Repr

/-- `exportMutation.mutationFn` (lines 465-502) together with its
`onSuccess`/`onError` handlers: throw if the SVG is not mounted; otherwise
hide the guides, wait a frame, serialize, restore the guides, then attempt the
fallible raster conversion. -/
def exportMutationRun (mounted : Bool) (showGuides0 : Bool)
    (captureOk : Bool) : SingleExportOutcome :=
  if !mounted then
    { showGuides := showGuides0, downloaded := false, errorReported := true }
  else
    -- setShowGuides(false); await frame; serialize; setShowGuides(originalShowGuides)
    let restored := showGuides0
    if captureOk then
      { showGuides := restored, downloaded := true, errorReported := false }
    else
      { showGuides := restored, downloaded := false, errorReported := true }

/-- Remove the first occurrence of a hash character
(JavaScript `color.replace(&#35;, )` with a string pattern replaces only the
first occurrence). -/
def removeFirstHashAux : List Char → List Char
  | [] => []
  | c :: rest => if c = '#' then rest else c :: removeFirstHashAux rest

/-- `const colorName = color.replace('#', '')` (line 578). -/
def removeFirstHash (s : String) : String :=
  String.mk (removeFirstHashAux s.data)

/-- The archive entry name for one variant:
`${designName || 'design'}-${colorName}.png` (line 579). -/
def batchEntryName (designName color : String) : String :=
  (if designName = "" then "design" else designName) ++ "-" ++ removeFirstHash color ++ ".png"

/-- `JSZip.file(name, blob)`: adds a fresh entry, or replaces the content of
an existing entry of the same name (the set of entry names is unchanged). -/
def zipFile (names : List String) (name : String) : List String :=
  if name ∈ names then names else names ++ [name]

/-- Outcome of the `try` block's loop: accumulated zip entry names, whether it
completed without a capture failure, and how many captures were attempted. -/
structure BatchLoopOut where
  zipNames : List String
  ok : Bool
  captureAttempts : Nat
deriving DecidableEq, Repr

/-- The `for` loop of `handleBatchExport` (lines 539-580): set the background
to the variant, wait, skip if the SVG is unmounted (`continue`), capture, add
to the zip; a capture failure throws out of the loop. -/
def batchLoop (mounted : Bool) (designName : String) (capture : Nat → Bool) :
    List String → Nat → List String → BatchLoopOut
  | [], _, names => { zipNames := names, ok := true, captureAttempts := 0 }
  | color :: rest, i, names =>
    if mounted then
      if capture i then
        let out := batchLoop mounted designName capture rest (i + 1)
          (zipFile names (batchEntryName designName color))
        { out with captureAttempts := out.captureAttempts + 1 }
      else
        { zipNames := names, ok := false, captureAttempts := 1 }
    else
      batchLoop mounted designName capture rest (i + 1) names

/-- Observable outcome of a whole batch export. -/
structure BatchOutcome where
  bgColor : String
  showGuides : Bool
  batchExporting : Bool
  zipNames : List String
  downloadedArchive : Option (List String)
  errorReported : Bool
  captureAttempts : Nat
deriving DecidableEq, Repr

/-- `handleBatchExport` (lines 526-608): early return when unmounted or no
variants; otherwise save the original background color and guide flag, hide
guides, run the loop inside `try`, download the archive on success, report one
error on failure, and restore the saved state in `finally` on every exit
path. -/
def handleBatchExport (mounted : Bool) (designName backgroundColor : String)
    (showGuides : Bool) (batchColors : List String) (capture : Nat → Bool) :
    BatchOutcome :=
  if !mounted || batchColors.isEmpty then
    { bgColor := backgroundColor, showGuides := showGuides, batchExporting := false,
      zipNames := [], downloadedArchive := Option.none, errorReported := false,
      captureAttempts := 0 }
  else
    let originalColor := backgroundColor
    let originalShowGuides := showGuides
    let out := batchLoop mounted designName capture batchColors 0 []
    { bgColor := originalColor
      showGuides := originalShowGuides
      batchExporting := false
      zipNames := out.zipNames
      downloadedArchive := if out.ok then some out.zipNames else Option.none
      errorReported := !out.ok
      captureAttempts := out.captureAttempts }

/-- The raster files actually delivered to the user: the generated archive's
entries on success, nothing when the batch aborted. -/
def archiveFiles (o : BatchOutcome) : List String :=
  match o.downloadedArchive with
  | some names => names
  | Option.none => []

/-- A background-color value as produced by the color inputs: a hash sign
followed by the hex digits. -/
def startsWithHash (s : String) : Bool :=
  match s.data with
  | c :: _ => decide (c = '#')
  | [] => false

/-! ### Specification predicates and sample scenes for the claims -/

/-- Exchange the two values `L` and `M`, leaving every other value fixed. -/
def swapVals (L M x : ℤ) : ℤ :=
  if x = L then M else if x = M then L else x

/-- What "move up" must do to the scene `s` for target `r`, producing `t`:
if no element holds a layer strictly greater than the target's, nothing
changes; otherwise the target and the unique element holding the least
strictly-greater layer exchange layer values and nothing else moves, so the
multiset of layers is preserved. -/
def SwapUpSpec (s : DesignerState) (r : ElemRef) (t : DesignerState) : Prop :=
  ∀ L, refLayer s r = some L →
    ((∀ l ∈ allLayers s, ¬ L < l) → t = s) ∧
    ∀ M, IsLeast { l : ℤ | l ∈ allLayers s ∧ L < l } M →
      ∃ r₂, r₂ ≠ r ∧ refLayer s r₂ = some M ∧ refLayer t r = some M ∧
        refLayer t r₂ = some L ∧
        (∀ r₃, r₃ ≠ r → r₃ ≠ r₂ → refLayer t r₃ = refLayer s r₃) ∧
        (allLayers t).Perm (allLayers s)

/-- The mirror-image of `SwapUpSpec` for "move down": the partner is the
element holding the greatest strictly-smaller layer. -/
def SwapDownSpec (s : DesignerState) (r : ElemRef) (t : DesignerState) : Prop :=
  ∀ L, refLayer s r = some L →
    ((∀ l ∈ allLayers s, ¬ l < L) → t = s) ∧
    ∀ M, IsGreatest { l : ℤ | l ∈ allLayers s ∧ l < L } M →
      ∃ r₂, r₂ ≠ r ∧ refLayer s r₂ = some M ∧ refLayer t r = some M ∧
        refLayer t r₂ = some L ∧
        (∀ r₃, r₃ ≠ r → r₃ ≠ r₂ → refLayer t r₃ = refLayer s r₃) ∧
        (allLayers t).Perm (allLayers s)

/-- A sample text element used by the concrete scenes below. -/
def sampleText (i : String) (l : ℤ) : TextElem :=
  { id := i, content := "New Text", x := 16, y := 50, fontSize := 6,
    color := "#0f172a", fontFamily := "Impact", strokeWidth := 0,
    strokeColor := Option.none, layer := l }

/-- A well-formed scene: image at layer 1 between two texts (layers 0 and 2). -/
def sceneA : DesignerState :=
  { initState with imageUrl := "board-image.png", imageLayer := 1,
                   textElements := [sampleText "a" 0, sampleText "b" 2] }

/-- A scene whose single text element holds the maximum layer, above the
image: `moveUp` on it is a no-op, after which `moveDown` swaps it with the
image. -/
def sceneMaxText : DesignerState :=
  { initState with imageUrl := "board-image.png",
                   textElements := [sampleText "t1" 1] }

/-- Text elements with layers `[3, 1, 2]` (and no image). -/
def scene312 : DesignerState :=
  { initState with
      textElements := [sampleText "a" 3, sampleText "b" 1, sampleText "c" 2] }

/-- A capture oracle that succeeds on the first variant and fails afterwards. -/
def captureFirstOnly : Nat → Bool := fun i => decide (i = 0)

/-- A capture oracle that always succeeds. -/
def captureAlways : Nat → Bool := fun _ => true

/-! ## Theorems -/

/-- Claim C1 (the code violates it): starting from the initial scene, adding
an image and then one text box yields two live elements that both hold layer
0, because `addTextBox` computes the maximum layer over the text elements
only and ignores `imageLayer`. -/
theorem c1_addTextBox_breaks_uniqueness :
    ¬ (allLayers (addTextBox (uploadImage initState "board-image.png") "1759557516643")).Nodup := by
  decide

/-- Claim C2 (the code violates it): with an image present at layer 0 and no
text elements, `addTextBox` assigns the new element layer 0, which is not
strictly greater than the maximum layer among all elements (the image's 0). -/
theorem c2_new_layer_not_above_image :
    ∃ t ∈ (addTextBox (uploadImage initState "board-image.png") "t1").textElements,
      t.id = "t1" ∧ ¬ ((uploadImage initState "board-image.png").imageLayer < t.layer) := by
  decide

/-- Claim C5, corrected: with the horizontal-flip flag off, the draw-space
top-left is `(cx − w/2, cy − h/2)` for the scaled size `w × h`, and the
draw-space image of the local center of the image box equals `(cx, cy)` for
every scale and rotation. -/
theorem c5_center_anchoring (cx cy scale rot : ℝ) :
    imageTopLeftX cx scale = cx - imageWidth scale / 2 ∧
    imageTopLeftY cy scale = cy - imageHeight scale / 2 ∧
    drawCenter cx cy scale rot false = (cx, cy) := by
  refine ⟨rfl, rfl, ?_⟩
  have hrot : rotatePoint rot (imageWidth scale / 2) (imageHeight scale / 2)
      (imageWidth scale / 2, imageHeight scale / 2) =
      (imageWidth scale / 2, imageHeight scale / 2) := by
    simp [rotatePoint]
  simp [drawCenter, imageTransformPoint, flipPoint, hrot, imageTopLeftX, imageTopLeftY]

/-- Claim C5 as stated is false for a flipped image: the vertical flip
`scale(1 -1)` reflects about the local x-axis, not about the box center, so
the drawn center of a flipped unrotated image at center `(8, 20)` sits at
`(8, -20)`. -/
theorem c5_counterexample : drawCenter 8 20 100 0 true ≠ (8, 20) := by
  intro hEq
  have h2 := congrArg Prod.snd hEq
  simp [drawCenter, imageTransformPoint, rotatePoint, flipPoint, imageTopLeftX,
        imageTopLeftY, imageHeight, imageWidth, Real.sin_zero, Real.cos_zero] at h2
  norm_num at h2

/-- Claim C9: the single-export mutation restores the prior guide-overlay
visibility whether the SVG is unmounted, the capture fails, or the capture
succeeds (the restore happens before the fallible raster conversion, and the
unmounted early-throw happens before the guides are touched). -/
theorem c9_single_export_restores_guides (mounted showGuides0 captureOk : Bool) :
    (exportMutationRun mounted showGuides0 captureOk).showGuides = showGuides0 := by
  cases mounted <;> cases captureOk <;> rfl

/-- Claim C10: `moveLayerUp`/`moveLayerDown` with an identifier matching no
live text element (`prev.find(...)` returns `undefined`) return the previous
state unchanged. -/
theorem c10_move_unknown_id_noop (s : DesignerState) (id : String)
    (h : ∀ t ∈ s.textElements, t.id ≠ id) :
    moveLayerUp s id = s ∧ moveLayerDown s id = s := by
  have hfind : s.textElements.find? (fun t => decide (t.id = id)) = Option.none := by
    rw [List.find?_eq_none]
    intro t ht
    simpa using h t ht
  constructor
  · simp [moveLayerUp, hfind]
  · simp [moveLayerDown, hfind]

/-- Witness for C10 at a concrete scene and unknown identifier. -/
theorem c10_witness : moveLayerUp sceneA "zzz" = sceneA ∧ moveLayerDown sceneA "zzz" = sceneA :=
  c10_move_unknown_id_noop sceneA "zzz" (by decide)

/-- Claim C6: the composed draw list is sorted ascending by layer, contains
exactly one entry per text element plus an image entry exactly when an image
is present, and on text layers `[3, 1, 2]` it comes out as `[1, 2, 3]`. -/
theorem c6_compositor_order (s : DesignerState) :
    (layerElements s).Pairwise (fun a b => a.layer ≤ b.layer) ∧
    (layerElements s).Perm
      ((if s.imageUrl ≠ "" then [LayerElement.image s.imageLayer] else []) ++
        s.textElements.map (fun t => LayerElement.text t.layer t)) ∧
    (layerElements scene312).map LayerElement.layer = [1, 2, 3] := by
  refine ⟨?_, List.perm_insertionSort _ _, by decide⟩
  haveI : IsTotal LayerElement (fun a b => a.layer ≤ b.layer) := ⟨fun a b => le_total _ _⟩
  haveI : IsTrans LayerElement (fun a b => a.layer ≤ b.layer) :=
    ⟨fun _ _ _ hab hbc => le_trans hab hbc⟩
  exact List.sorted_insertionSort _ _

/-- If the first capture failure among the remaining variants happens at
relative index `k`, the batch loop aborts there: `ok` is false and exactly
`k + 1` captures were attempted (the later variants are skipped). -/
theorem batchLoop_fail (designName : String) (capture : Nat → Bool) :
    ∀ (colors : List String) (i : Nat) (names : List String) (k : Nat),
      k < colors.length → capture (i + k) = false → (∀ j, j < k → capture (i + j) = true) →
      (batchLoop true designName capture colors i names).ok = false ∧
      (batchLoop true designName capture colors i names).captureAttempts = k + 1 := by
  intro colors
  induction colors with
  | nil => intro i names k hk hfail hprev; simp at hk
  | cons c rest ih =>
    intro i names k hk hfail hprev
    cases k with
    | zero =>
      have h0 : capture i = false := by simpa using hfail
      simp [batchLoop, h0]
    | succ m =>
      have hc : capture i = true := by simpa using hprev 0 (Nat.succ_pos _)
      have hm : m < rest.length := by simpa [Nat.succ_lt_succ_iff] using hk
      have hfail' : capture (i + 1 + m) = false := by
        have harith : i + 1 + m = i + (m + 1) := by omega
        rw [harith]; exact hfail
      have hprev' : ∀ j, j < m → capture (i + 1 + j) = true := by
        intro j hj
        have harith : i + 1 + j = i + (j + 1) := by omega
        rw [harith]; exact hprev (j + 1) (by omega)
      have hrec := ih (i + 1) (zipFile names (batchEntryName designName c)) m hm hfail' hprev'
      simp [batchLoop, hc, hrec.1, hrec.2]

/-- When every capture succeeds, the batch loop appends one archive entry per
variant, in list order, and attempts exactly one capture per variant. -/
theorem batchLoop_success (designName : String) (capture : Nat → Bool) :
    ∀ (colors : List String) (i : Nat) (names : List String),
      (∀ j, j < colors.length → capture (i + j) = true) →
      (∀ n ∈ names, n ∉ colors.map (batchEntryName designName)) →
      (colors.map (batchEntryName designName)).Nodup →
      batchLoop true designName capture colors i names =
        { zipNames := names ++ colors.map (batchEntryName designName), ok := true,
          captureAttempts := colors.length } := by
  intro colors
  induction colors with
  | nil => intro i names _ _ _; simp [batchLoop]
  | cons c rest ih =>
    intro i names hcap hdisj hnd
    have hc : capture i = true := by simpa using hcap 0 (by simp)
    have hname : batchEntryName designName c ∉ names := by
      intro hmem
      exact hdisj _ hmem (by simp)
    have hzip : zipFile names (batchEntryName designName c) =
        names ++ [batchEntryName designName c] := by
      simp [zipFile, hname]
    rw [List.map_cons, List.nodup_cons] at hnd
    have hdisj' : ∀ n ∈ names ++ [batchEntryName designName c],
        n ∉ rest.map (batchEntryName designName) := by
      intro n hn
      rcases List.mem_append.mp hn with hn' | hn'
      · intro hmem
        exact hdisj n hn' (by simp [hmem])
      · rw [List.mem_singleton] at hn'
        subst hn'
        exact hnd.1
    have hcap' : ∀ j, j < rest.length → capture (i + 1 + j) = true := by
      intro j hj
      have harith : i + 1 + j = i + (j + 1) := by omega
      rw [harith]
      exact hcap (j + 1) (by simpa using Nat.succ_lt_succ hj)
    have hrec := ih (i + 1) (names ++ [batchEntryName designName c]) hcap' hdisj' hnd.2
    simp [batchLoop, hc, hzip, hrec, List.append_assoc]

/-- Claim C7: batch export restores the background color, the guide
visibility and the exporting flag on every exit path, and when capture fails
on variant `k` (the earlier ones succeeding) it aborts with no delivered
archive, one reported error, and no capture attempted past variant `k`. -/
theorem c7_batch_restore_and_fail_fast (mounted : Bool) (designName bg0 : String)
    (g0 : Bool) (colors : List String) (capture : Nat → Bool) :
    ((handleBatchExport mounted designName bg0 g0 colors capture).bgColor = bg0 ∧
      (handleBatchExport mounted designName bg0 g0 colors capture).showGuides = g0 ∧
      (handleBatchExport mounted designName bg0 g0 colors capture).batchExporting = false) ∧
    (∀ k, mounted = true → k < colors.length → capture k = false →
      (∀ j, j < k → capture j = true) →
      archiveFiles (handleBatchExport mounted designName bg0 g0 colors capture) = [] ∧
      (handleBatchExport mounted designName bg0 g0 colors capture).errorReported = true ∧
      (handleBatchExport mounted designName bg0 g0 colors capture).captureAttempts = k + 1) := by
  constructor
  · unfold handleBatchExport
    split <;> simp
  · intro k hm hk hfail hprev
    subst hm
    have hne : colors.isEmpty = false := by
      cases colors
      · simp at hk
      · simp
    have hloop := batchLoop_fail designName capture colors 0 [] k hk
      (by simpa using hfail) (by simpa using hprev)
    simp [handleBatchExport, hne, archiveFiles, hloop.1, hloop.2]

/-- Witness for C7: three variants, the second capture fails; the archive is
empty, one error is reported, the third variant is never attempted, and the
scene state is restored. -/
theorem c7_witness :
    ((handleBatchExport true "myboard" "#ffffff" true ["#aa0000", "#00bb00", "#0000cc"]
        captureFirstOnly).bgColor = "#ffffff" ∧
      (handleBatchExport true "myboard" "#ffffff" true ["#aa0000", "#00bb00", "#0000cc"]
        captureFirstOnly).showGuides = true ∧
      (handleBatchExport true "myboard" "#ffffff" true ["#aa0000", "#00bb00", "#0000cc"]
        captureFirstOnly).batchExporting = false) ∧
    (archiveFiles (handleBatchExport true "myboard" "#ffffff" true
        ["#aa0000", "#00bb00", "#0000cc"] captureFirstOnly) = [] ∧
      (handleBatchExport true "myboard" "#ffffff" true ["#aa0000", "#00bb00", "#0000cc"]
        captureFirstOnly).errorReported = true ∧
      (handleBatchExport true "myboard" "#ffffff" true ["#aa0000", "#00bb00", "#0000cc"]
        captureFirstOnly).captureAttempts = 2) :=
  ⟨(c7_batch_restore_and_fail_fast true "myboard" "#ffffff" true
      ["#aa0000", "#00bb00", "#0000cc"] captureFirstOnly).1,
   (c7_batch_restore_and_fail_fast true "myboard" "#ffffff" true
      ["#aa0000", "#00bb00", "#0000cc"] captureFirstOnly).2 1 rfl (by decide) (by decide)
      (by intro j hj
          have hj0 : j = 0 := by omega
          subst hj0
          rfl)⟩

/-- A color value starting with a hash is the hash followed by its tail. -/
theorem startsWithHash_shape {c : String} (h : startsWithHash c = true) :
    ∃ rest : List Char, c.data = '#' :: rest := by
  rcases c with ⟨data⟩
  cases data with
  | nil => simp [startsWithHash] at h
  | cons ch rest =>
    have hch : ch = '#' := by simpa [startsWithHash] using h
    exact ⟨rest, by simp [hch]⟩

/-- Removing the first hash from a hash-headed character list drops it. -/
theorem removeFirstHashAux_cons (rest : List Char) :
    removeFirstHashAux ('#' :: rest) = rest := by
  simp [removeFirstHashAux]

/-- On hash-headed color values the archive entry name determines the color:
distinct colors get distinct entry names. -/
theorem batchEntryName_injOn (designName : String) {c₁ c₂ : String}
    (h₁ : startsWithHash c₁ = true) (h₂ : startsWithHash c₂ = true)
    (h : batchEntryName designName c₁ = batchEntryName designName c₂) : c₁ = c₂ := by
  obtain ⟨r₁, hr₁⟩ := startsWithHash_shape h₁
  obtain ⟨r₂, hr₂⟩ := startsWithHash_shape h₂
  have hd := congrArg String.data h
  simp only [batchEntryName, String.data_append, List.append_assoc] at hd
  rw [List.append_right_inj, List.append_right_inj, List.append_left_inj] at hd
  have hdata : (removeFirstHash c₁).data = (removeFirstHash c₂).data := hd
  rw [removeFirstHash, removeFirstHash] at hdata
  simp only [hr₁, hr₂, removeFirstHashAux_cons] at hdata
  apply String.ext
  rw [hr₁, hr₂, hdata]

/-- Distinct hash-headed colors yield pairwise distinct archive entry names. -/
theorem batchNames_nodup (designName : String) {colors : List String}
    (hnd : colors.Nodup) (hhex : ∀ c ∈ colors, startsWithHash c = true) :
    (colors.map (batchEntryName designName)).Nodup :=
  hnd.map_on (fun x hx y hy hxy =>
    batchEntryName_injOn designName (hhex x hx) (hhex y hy) hxy)

/-- Claim C8: with a mounted surface and distinct color variants, a fully
successful batch export delivers exactly one raster per variant, named from
the design name and the color, in the variants' list order, with one capture
per variant, and restores the scene state. -/
theorem c8_batch_success_cardinality (designName bg0 : String) (g0 : Bool)
    (colors : List String) (capture : Nat → Bool)
    (hne : colors ≠ []) (hnd : colors.Nodup)
    (hhex : ∀ c ∈ colors, startsWithHash c = true)
    (hcap : ∀ j, j < colors.length → capture j = true) :
    archiveFiles (handleBatchExport true designName bg0 g0 colors capture) =
      colors.map (batchEntryName designName) ∧
    (archiveFiles (handleBatchExport true designName bg0 g0 colors capture)).length =
      colors.length ∧
    (handleBatchExport true designName bg0 g0 colors capture).captureAttempts =
      colors.length ∧
    (handleBatchExport true designName bg0 g0 colors capture).bgColor = bg0 ∧
    (handleBatchExport true designName bg0 g0 colors capture).showGuides = g0 ∧
    (handleBatchExport true designName bg0 g0 colors capture).errorReported = false := by
  have hempty : colors.isEmpty = false := by
    cases colors
    · exact absurd rfl hne
    · simp
  have hloop := batchLoop_success designName capture colors 0 []
    (by simpa using hcap) (by simp) (batchNames_nodup designName hnd hhex)
  refine ⟨?_, ?_, ?_, ?_, ?_, ?_⟩ <;>
    simp [handleBatchExport, hempty, archiveFiles, hloop]

/-- Witness for C8: two distinct variants, every capture succeeds. -/
theorem c8_witness :
    archiveFiles (handleBatchExport true "myboard" "#ffffff" true ["#ff0000", "#00ff00"]
        captureAlways) =
      ["#ff0000", "#00ff00"].map (batchEntryName "myboard") ∧
    (archiveFiles (handleBatchExport true "myboard" "#ffffff" true ["#ff0000", "#00ff00"]
        captureAlways)).length = 2 ∧
    (handleBatchExport true "myboard" "#ffffff" true ["#ff0000", "#00ff00"]
        captureAlways).captureAttempts = 2 ∧
    (handleBatchExport true "myboard" "#ffffff" true ["#ff0000", "#00ff00"]
        captureAlways).bgColor = "#ffffff" ∧
    (handleBatchExport true "myboard" "#ffffff" true ["#ff0000", "#00ff00"]
        captureAlways).showGuides = true ∧
    (handleBatchExport true "myboard" "#ffffff" true ["#ff0000", "#00ff00"]
        captureAlways).errorReported = false :=
  c8_batch_success_cardinality "myboard" "#ffffff" true ["#ff0000", "#00ff00"] captureAlways
    (by decide) (by decide) (by decide) (fun j hj => rfl)

/-! ### Helper lemmas for the layer-ordering proofs -/

/-- The head of an ascending insertion sort is a minimising element. -/
theorem insertionSort_head_min {α : Type} (key : α → ℤ) {l : List α} {h : α} {rest : List α}
    (heq : l.insertionSort (fun a b => key a ≤ key b) = h :: rest) :
    h ∈ l ∧ ∀ x ∈ l, key h ≤ key x := by
  haveI : IsTotal α (fun a b => key a ≤ key b) := ⟨fun a b => le_total _ _⟩
  haveI : IsTrans α (fun a b => key a ≤ key b) := ⟨fun _ _ _ hab hbc => le_trans hab hbc⟩
  have hperm := List.perm_insertionSort (fun a b => key a ≤ key b) l
  have hsorted := List.sorted_insertionSort (fun a b => key a ≤ key b) l
  rw [heq] at hperm hsorted
  refine ⟨hperm.mem_iff.mp (List.mem_cons_self h rest), ?_⟩
  intro x hx
  rcases List.mem_cons.mp (hperm.mem_iff.mpr hx) with hx' | hx'
  · exact le_of_eq (congrArg key hx'.symm)
  · exact List.rel_of_sorted_cons hsorted x hx'

/-- The head of a descending insertion sort is a maximising element. -/
theorem insertionSort_head_max {α : Type} (key : α → ℤ) {l : List α} {h : α} {rest : List α}
    (heq : l.insertionSort (fun a b => key b ≤ key a) = h :: rest) :
    h ∈ l ∧ ∀ x ∈ l, key x ≤ key h := by
  haveI : IsTotal α (fun a b => key b ≤ key a) := ⟨fun a b => le_total _ _⟩
  haveI : IsTrans α (fun a b => key b ≤ key a) := ⟨fun _ _ _ hab hbc => le_trans hbc hab⟩
  have hperm := List.perm_insertionSort (fun a b => key b ≤ key a) l
  have hsorted := List.sorted_insertionSort (fun a b => key b ≤ key a) l
  rw [heq] at hperm hsorted
  refine ⟨hperm.mem_iff.mp (List.mem_cons_self h rest), ?_⟩
  intro x hx
  rcases List.mem_cons.mp (hperm.mem_iff.mpr hx) with hx' | hx'
  · exact le_of_eq (congrArg key hx')
  · exact List.rel_of_sorted_cons hsorted x hx'

/-- Sorting a nonempty list cannot produce the empty list. -/
theorem insertionSort_ne_nil {α : Type} (r : α → α → Prop) [DecidableRel r] {l : List α}
    (hl : l ≠ []) : l.insertionSort r ≠ [] := by
  intro hnil
  have hperm := List.perm_insertionSort r l
  rw [hnil] at hperm
  exact hl hperm.symm.eq_nil

/-- Unpack a successful `find?` on an element id. -/
theorem of_find?_id_eq_some {ts : List TextElem} {id : String} {e : TextElem}
    (h : ts.find? (fun t => decide (t.id = id)) = some e) : e ∈ ts ∧ e.id = id := by
  refine ⟨List.mem_of_find?_eq_some h, ?_⟩
  have hp := List.find?_some h
  simpa using hp

/-- With pairwise-distinct ids, `find?` on a member's id returns it. -/
theorem find?_id_eq_some_of_mem {ts : List TextElem}
    (hnd : (ts.map (fun t => t.id)).Nodup) {u : TextElem} (hu : u ∈ ts) :
    ts.find? (fun t => decide (t.id = u.id)) = some u := by
  induction ts with
  | nil => cases hu
  | cons a tl ih =>
    rw [List.map_cons, List.nodup_cons] at hnd
    rcases List.mem_cons.mp hu with rfl | hu'
    · simp
    · have hne : ¬ a.id = u.id := by
        intro he
        exact hnd.1 (he ▸ List.mem_map_of_mem (fun t => t.id) hu')
      rw [List.find?_cons_of_neg _ (by simpa using hne)]
      exact ih hnd.2 hu'

/-- `find?` by id commutes with a map that preserves ids. -/
theorem find?_map_id_pres {f : TextElem → TextElem} (hf : ∀ t, (f t).id = t.id)
    (ts : List TextElem) (w : String) :
    (ts.map f).find? (fun t => decide (t.id = w)) =
      (ts.find? (fun t => decide (t.id = w))).map f := by
  rw [List.find?_map]
  have hpred : ((fun t => decide (t.id = w)) ∘ f) = (fun t => decide (t.id = w)) := by
    funext t
    simp [Function.comp, hf]
  rw [hpred]

/-- Exchanging two values is an involution. -/
theorem swapVals_involutive (L M : ℤ) : Function.Involutive (swapVals L M) := by
  intro x
  unfold swapVals
  split_ifs <;> omega

/-- The first exchanged value maps to the second. -/
theorem swapVals_left (L M : ℤ) : swapVals L M L = M := by
  simp [swapVals]

/-- The second exchanged value maps to the first. -/
theorem swapVals_right {L M : ℤ} (h : L ≠ M) : swapVals L M M = L := by
  unfold swapVals
  rw [if_neg (fun he => h he.symm), if_pos rfl]

/-- Values other than the two exchanged ones are fixed. -/
theorem swapVals_other {L M x : ℤ} (h1 : x ≠ L) (h2 : x ≠ M) : swapVals L M x = x := by
  unfold swapVals
  rw [if_neg h1, if_neg h2]

/-- Exchanging two values that both occur in a duplicate-free list permutes
the list. -/
theorem perm_map_swapVals {l : List ℤ} {L M : ℤ} (hnd : l.Nodup) (hL : L ∈ l) (hM : M ∈ l) :
    (l.map (swapVals L M)).Perm l := by
  rw [List.perm_iff_count]
  intro v
  have hinv := swapVals_involutive L M
  have step1 : List.count v (l.map (swapVals L M)) = List.count (swapVals L M v) l := by
    conv_lhs => rw [show v = swapVals L M (swapVals L M v) from (hinv v).symm]
    exact List.count_map_of_injective l _ hinv.injective _
  rw [step1]
  by_cases hvL : v = L
  · rw [hvL, swapVals_left]
    by_cases hLM : L = M
    · rw [← hLM]
    · rw [List.count_eq_one_of_mem hnd hM, List.count_eq_one_of_mem hnd hL]
  · by_cases hvM : v = M
    · have hLM : L ≠ M := fun he => hvL (hvM.trans he.symm)
      rw [hvM, swapVals_right hLM, List.count_eq_one_of_mem hnd hL,
        List.count_eq_one_of_mem hnd hM]
    · rw [swapVals_other hvL hvM]

/-- Distinct layers overall give distinct layers among the text elements. -/
theorem text_layers_nodup {s : DesignerState} (h : (allLayers s).Nodup) :
    (s.textElements.map (fun t => t.layer)).Nodup :=
  (List.nodup_append.mp h).1

/-- Distinct layers overall: no text element holds the image's layer. -/
theorem image_layer_notin_texts {s : DesignerState} (h : (allLayers s).Nodup)
    {t : TextElem} (ht : t ∈ s.textElements) : t.layer ≠ s.imageLayer := by
  intro he
  exact (List.nodup_append.mp h).2.2 (List.mem_map_of_mem (fun t => t.layer) ht)
    (by simp [he])

/-- Distinct layers: two text elements with the same layer coincide. -/
theorem layer_inj_texts {s : DesignerState} (h : (allLayers s).Nodup)
    {u v : TextElem} (hu : u ∈ s.textElements) (hv : v ∈ s.textElements)
    (he : u.layer = v.layer) : u = v :=
  List.inj_on_of_nodup_map (text_layers_nodup h) hu hv he

/-- Distinct ids: two text elements with the same id coincide. -/
theorem id_inj_texts {s : DesignerState} (h : (s.textElements.map (fun t => t.id)).Nodup)
    {u v : TextElem} (hu : u ∈ s.textElements) (hv : v ∈ s.textElements)
    (he : u.id = v.id) : u = v :=
  List.inj_on_of_nodup_map h hu hv he

/-- The layers of the records scanned by `moveLayerUp`/`moveLayerDown` are
exactly the layers of all live elements. -/
theorem layerRecords_map_layer (s : DesignerState) :
    (layerRecords s).map (fun e => e.layer) = allLayers s := by
  simp [layerRecords, allLayers]

/-- In a well-formed scene the layer assignment is injective: two element
references holding the same layer are the same element. -/
theorem refLayer_inj {s : DesignerState} (hwf : WellFormed s) {a b : ElemRef} {v : ℤ}
    (ha : refLayer s a = some v) (hb : refLayer s b = some v) : a = b := by
  obtain ⟨hid, hlay⟩ := hwf
  cases a with
  | text i =>
    rw [refLayer, Option.map_eq_some'] at ha
    obtain ⟨u, hu_find, hu_layer⟩ := ha
    obtain ⟨hu_mem, hu_id⟩ := of_find?_id_eq_some hu_find
    cases b with
    | text j =>
      rw [refLayer, Option.map_eq_some'] at hb
      obtain ⟨w, hw_find, hw_layer⟩ := hb
      obtain ⟨hw_mem, hw_id⟩ := of_find?_id_eq_some hw_find
      have huw : u = w := layer_inj_texts hlay hu_mem hw_mem (by rw [hu_layer, hw_layer])
      rw [← hu_id, ← hw_id, huw]
    | image =>
      exfalso
      rw [refLayer, Option.some_inj] at hb
      exact image_layer_notin_texts hlay hu_mem (by rw [hu_layer, ← hb])
  | image =>
    cases b with
    | text j =>
      exfalso
      rw [refLayer, Option.some_inj] at ha
      rw [refLayer, Option.map_eq_some'] at hb
      obtain ⟨w, hw_find, hw_layer⟩ := hb
      obtain ⟨hw_mem, hw_id⟩ := of_find?_id_eq_some hw_find
      exact image_layer_notin_texts hlay hw_mem (by rw [hw_layer, ← ha])
    | image => rfl

/-- `swapTextMap` never changes an element's id. -/
theorem swapTextMap_id (id : String) (tl ol : ℤ) (t : TextElem) :
    (swapTextMap id tl ol t).id = t.id := by
  unfold swapTextMap
  split_ifs <;> rfl

/-- `imageSwapMap` never changes an element's id. -/
theorem imageSwapMap_id (nid : String) (ol : ℤ) (t : TextElem) :
    (imageSwapMap nid ol t).id = t.id := by
  unfold imageSwapMap
  split_ifs <;> rfl

/-- Every record scanned by the text move handlers is a text record of a live
text element or the image record. -/
theorem mem_layerRecords_cases {s : DesignerState} {rec : LayerRecord}
    (hrec : rec ∈ layerRecords s) :
    (∃ u ∈ s.textElements, rec = { id := u.id, layer := u.layer, type := "text" }) ∨
      rec = { id := "image", layer := s.imageLayer, type := "image" } := by
  simp only [layerRecords] at hrec
  rcases List.mem_append.mp hrec with hrec' | hrec'
  · obtain ⟨u, hu, hrec''⟩ := List.mem_map.mp hrec'
    exact Or.inl ⟨u, hu, hrec''.symm⟩
  · exact Or.inr (List.mem_singleton.mp hrec')

/-- Unfolding `moveLayerUp` when the target is found and the candidate list
sorts to a nonempty list. -/
theorem moveLayerUp_eq_of_sort {s : DesignerState} {id : String} {element : TextElem}
    (hfind : s.textElements.find? (fun t => decide (t.id = id)) = some element)
    {h : LayerRecord} {rest : List LayerRecord}
    (hms : ((layerRecords s).filter (fun e => decide (element.layer < e.layer))).insertionSort
        (fun a b => a.layer ≤ b.layer) = h :: rest) :
    moveLayerUp s id =
      { s with
          imageLayer := if h.type = "image" then element.layer else s.imageLayer
          textElements := s.textElements.map (swapTextMap id h.layer element.layer) } := by
  simp only [moveLayerUp, hfind, hms]

/-- Unfolding `moveLayerUp` when the candidate list is empty. -/
theorem moveLayerUp_eq_of_sort_nil {s : DesignerState} {id : String} {element : TextElem}
    (hfind : s.textElements.find? (fun t => decide (t.id = id)) = some element)
    (hnil : (layerRecords s).filter (fun e => decide (element.layer < e.layer)) = []) :
    moveLayerUp s id = s := by
  simp only [moveLayerUp, hfind, hnil, List.insertionSort]

/-- Unfolding `moveLayerDown` when the target is found and the candidate list
sorts to a nonempty list. -/
theorem moveLayerDown_eq_of_sort {s : DesignerState} {id : String} {element : TextElem}
    (hfind : s.textElements.find? (fun t => decide (t.id = id)) = some element)
    {h : LayerRecord} {rest : List LayerRecord}
    (hms : ((layerRecords s).filter (fun e => decide (e.layer < element.layer))).insertionSort
        (fun a b => b.layer ≤ a.layer) = h :: rest) :
    moveLayerDown s id =
      { s with
          imageLayer := if h.type = "image" then element.layer else s.imageLayer
          textElements := s.textElements.map (swapTextMap id h.layer element.layer) } := by
  simp only [moveLayerDown, hfind, hms]

/-- Unfolding `moveLayerDown` when the candidate list is empty. -/
theorem moveLayerDown_eq_of_sort_nil {s : DesignerState} {id : String} {element : TextElem}
    (hfind : s.textElements.find? (fun t => decide (t.id = id)) = some element)
    (hnil : (layerRecords s).filter (fun e => decide (e.layer < element.layer)) = []) :
    moveLayerDown s id = s := by
  simp only [moveLayerDown, hfind, hnil, List.insertionSort]

/-- Unfolding `moveImageLayerUp` when the candidate list sorts to a nonempty
list. -/
theorem moveImageLayerUp_eq_of_sort {s : DesignerState}
    {h : String × ℤ} {rest : List (String × ℤ)}
    (hms : ((s.textElements.map (fun t => (t.id, t.layer))).filter
        (fun e => decide (s.imageLayer < e.2))).insertionSort
        (fun a b => a.2 ≤ b.2) = h :: rest) :
    moveImageLayerUp s =
      { s with
          imageLayer := h.2
          textElements := s.textElements.map (imageSwapMap h.1 s.imageLayer) } := by
  simp only [moveImageLayerUp, hms]

/-- Unfolding `moveImageLayerUp` when the candidate list is empty. -/
theorem moveImageLayerUp_eq_of_sort_nil {s : DesignerState}
    (hnil : (s.textElements.map (fun t => (t.id, t.layer))).filter
        (fun e => decide (s.imageLayer < e.2)) = []) :
    moveImageLayerUp s = s := by
  simp only [moveImageLayerUp, hnil, List.insertionSort]

/-- Unfolding `moveImageLayerDown` when the candidate list sorts to a
nonempty list. -/
theorem moveImageLayerDown_eq_of_sort {s : DesignerState}
    {h : String × ℤ} {rest : List (String × ℤ)}
    (hms : ((s.textElements.map (fun t => (t.id, t.layer))).filter
        (fun e => decide (e.2 < s.imageLayer))).insertionSort
        (fun a b => b.2 ≤ a.2) = h :: rest) :
    moveImageLayerDown s =
      { s with
          imageLayer := h.2
          textElements := s.textElements.map (imageSwapMap h.1 s.imageLayer) } := by
  simp only [moveImageLayerDown, hms]

/-- Unfolding `moveImageLayerDown` when the candidate list is empty. -/
theorem moveImageLayerDown_eq_of_sort_nil {s : DesignerState}
    (hnil : (s.textElements.map (fun t => (t.id, t.layer))).filter
        (fun e => decide (e.2 < s.imageLayer)) = []) :
    moveImageLayerDown s = s := by
  simp only [moveImageLayerDown, hnil, List.insertionSort]

/-- `moveLayerUp` on a live text element of a well-formed scene: a no-op when
the target already holds the overall maximum layer, and otherwise an exact
pairwise exchange with the unique element holding the least strictly-greater
layer. -/
theorem moveLayerUp_spec {s : DesignerState} {id : String} {element : TextElem}
    (hwf : WellFormed s)
    (hfind : s.textElements.find? (fun t => decide (t.id = id)) = some element) :
    ((∀ l ∈ allLayers s, ¬ element.layer < l) → moveLayerUp s id = s) ∧
    (∀ M, IsLeast { l : ℤ | l ∈ allLayers s ∧ element.layer < l } M →
      ∃ r₂, r₂ ≠ ElemRef.text id ∧ refLayer s r₂ = some M ∧
        refLayer (moveLayerUp s id) (ElemRef.text id) = some M ∧
        refLayer (moveLayerUp s id) r₂ = some element.layer ∧
        (∀ r₃, r₃ ≠ ElemRef.text id → r₃ ≠ r₂ →
          refLayer (moveLayerUp s id) r₃ = refLayer s r₃) ∧
        allLayers (moveLayerUp s id) = (allLayers s).map (swapVals element.layer M)) := by
  obtain ⟨hid_nd, hlay_nd⟩ := hwf
  obtain ⟨he_mem, he_id⟩ := of_find?_id_eq_some hfind
  constructor
  · intro hno
    apply moveLayerUp_eq_of_sort_nil hfind
    rw [List.filter_eq_nil_iff]
    intro rec hrec
    have hmem : rec.layer ∈ allLayers s := by
      rw [← layerRecords_map_layer]
      exact List.mem_map_of_mem _ hrec
    simpa using hno rec.layer hmem
  · intro M hM
    obtain ⟨⟨hM_mem, hLM⟩, hM_least⟩ := hM
    have hM_rec : M ∈ (layerRecords s).map (fun e => e.layer) := by
      rw [layerRecords_map_layer]
      exact hM_mem
    obtain ⟨rec, hrec_mem, hrec_layer⟩ := List.mem_map.mp hM_rec
    have hrec_fil : rec ∈ (layerRecords s).filter (fun e => decide (element.layer < e.layer)) :=
      List.mem_filter.mpr ⟨hrec_mem, by simp [hrec_layer, hLM]⟩
    cases hms : ((layerRecords s).filter (fun e => decide (element.layer < e.layer))).insertionSort
        (fun a b => a.layer ≤ b.layer) with
    | nil => exact absurd hms (insertionSort_ne_nil _ (List.ne_nil_of_mem hrec_fil))
    | cons h rest =>
    obtain ⟨hh_fil, hh_min⟩ := insertionSort_head_min (fun e : LayerRecord => e.layer) hms
    have hh_mem : h ∈ layerRecords s := (List.mem_filter.mp hh_fil).1
    have hhL : element.layer < h.layer := by
      have hfp := (List.mem_filter.mp hh_fil).2
      simpa using hfp
    have hh_layer_mem : h.layer ∈ allLayers s := by
      rw [← layerRecords_map_layer]
      exact List.mem_map_of_mem _ hh_mem
    have hhM : h.layer = M :=
      le_antisymm (hrec_layer ▸ hh_min rec hrec_fil) (hM_least ⟨hh_layer_mem, hhL⟩)
    have hLltM : element.layer < M := hhM ▸ hhL
    have hLneM : element.layer ≠ M := ne_of_lt hLltM
    have hres := moveLayerUp_eq_of_sort hfind hms
    have htexts : (moveLayerUp s id).textElements =
        s.textElements.map (swapTextMap id h.layer element.layer) := by
      rw [hres]
    have hf_id : ∀ t, (swapTextMap id h.layer element.layer t).id = t.id :=
      swapTextMap_id id h.layer element.layer
    have htarget : refLayer (moveLayerUp s id) (ElemRef.text id) = some M := by
      rw [refLayer, htexts, find?_map_id_pres hf_id, hfind]
      simp [swapTextMap, he_id, hhM]
    by_cases htype : h.type = "image"
    · -- the neighbour is the image
      have hh_eq : h = { id := "image", layer := s.imageLayer, type := "image" } := by
        rcases mem_layerRecords_cases hh_mem with ⟨u, _, hh'⟩ | hh'
        · rw [hh'] at htype
          simp at htype
        · exact hh'
      have hM_img : M = s.imageLayer := by
        rw [← hhM, hh_eq]
      have hnotext : ∀ t ∈ s.textElements, t.layer ≠ M := by
        intro t ht
        rw [hM_img]
        exact image_layer_notin_texts hlay_nd ht
      have himg : (moveLayerUp s id).imageLayer = element.layer := by
        rw [hres]
        simp [htype]
      refine ⟨ElemRef.image, by simp, ?_, htarget, ?_, ?_, ?_⟩
      · rw [refLayer, hM_img]
      · rw [refLayer, himg]
      · intro r₃ h₃₁ h₃₂
        cases r₃ with
        | image => exact absurd rfl h₃₂
        | text w =>
          have hw : ¬ w = id := fun he => h₃₁ (by rw [he])
          rw [refLayer, refLayer, htexts, find?_map_id_pres hf_id]
          cases hfw : s.textElements.find? (fun t => decide (t.id = w)) with
          | none => rfl
          | some v =>
            obtain ⟨hv_mem, hv_id⟩ := of_find?_id_eq_some hfw
            have hfv : swapTextMap id h.layer element.layer v = v := by
              rw [swapTextMap, if_neg (by rw [hv_id]; exact hw), if_neg]
              intro hcon
              exact hnotext v hv_mem (hhM ▸ hcon.1)
            simp [hfv]
      · rw [allLayers, allLayers, htexts, himg, List.map_append, List.map_map, List.map_map]
        congr 1
        · apply List.map_congr_left
          intro t ht
          by_cases hti : t.id = id
          · have hte : t = element := id_inj_texts hid_nd ht he_mem (by rw [hti, he_id])
            simp [Function.comp, swapTextMap, hti, hte, he_id, swapVals_left, hhM]
          · have htl : t.layer ≠ element.layer := fun he =>
              hti (by rw [layer_inj_texts hlay_nd ht he_mem he, he_id])
            have htM : t.layer ≠ M := hnotext t ht
            have hfv : swapTextMap id h.layer element.layer t = t := by
              rw [swapTextMap, if_neg hti, if_neg]
              intro hcon
              exact htM (hhM ▸ hcon.1)
            simp [Function.comp, hfv, swapVals_other htl htM]
        · rw [← hM_img]
          simp [swapVals_right hLneM]
    · -- C3-up: the neighbour is a text element
      obtain ⟨u, hu_mem, hu_eq⟩ := (mem_layerRecords_cases hh_mem).resolve_right
        (fun hh' => htype (by rw [hh']))
      have hu_layer : u.layer = M := by
        rw [← hhM, hu_eq]
      have hu_ne : ¬ u.id = id := by
        intro he
        have hue : u = element := id_inj_texts hid_nd hu_mem he_mem (by rw [he, he_id])
        rw [hue] at hu_layer
        exact absurd (hu_layer ▸ hLltM) (lt_irrefl M)
      have himg : (moveLayerUp s id).imageLayer = s.imageLayer := by
        rw [hres]
        simp [htype]
      have himg_ne_L : s.imageLayer ≠ element.layer :=
        fun he => image_layer_notin_texts hlay_nd he_mem he.symm
      have himg_ne_M : s.imageLayer ≠ M :=
        fun he => image_layer_notin_texts hlay_nd hu_mem (hu_layer.trans he.symm)
      refine ⟨ElemRef.text u.id, by simp [hu_ne], ?_, htarget, ?_, ?_, ?_⟩
      · rw [refLayer, find?_id_eq_some_of_mem hid_nd hu_mem]
        simp [hu_layer]
      · rw [refLayer, htexts, find?_map_id_pres hf_id, find?_id_eq_some_of_mem hid_nd hu_mem]
        have hfu : swapTextMap id h.layer element.layer u = { u with layer := element.layer } := by
          rw [swapTextMap, if_neg hu_ne, if_pos ⟨by rw [hu_layer, hhM], hu_ne⟩]
        simp [hfu]
      · intro r₃ h₃₁ h₃₂
        cases r₃ with
        | image => rw [refLayer, refLayer, himg]
        | text w =>
          have hw : ¬ w = id := fun he => h₃₁ (by rw [he])
          have hwu : ¬ w = u.id := fun he => h₃₂ (by rw [he])
          rw [refLayer, refLayer, htexts, find?_map_id_pres hf_id]
          cases hfw : s.textElements.find? (fun t => decide (t.id = w)) with
          | none => rfl
          | some v =>
            obtain ⟨hv_mem, hv_id⟩ := of_find?_id_eq_some hfw
            have hfv : swapTextMap id h.layer element.layer v = v := by
              rw [swapTextMap, if_neg (by rw [hv_id]; exact hw), if_neg]
              intro hcon
              have hvu : v = u := layer_inj_texts hlay_nd hv_mem hu_mem
                (hcon.1.trans (hhM.trans hu_layer.symm))
              exact hwu (by rw [← hv_id, hvu])
            simp [hfv]
      · rw [allLayers, allLayers, htexts, himg, List.map_append, List.map_map, List.map_map]
        congr 1
        · apply List.map_congr_left
          intro t ht
          by_cases hti : t.id = id
          · have hte : t = element := id_inj_texts hid_nd ht he_mem (by rw [hti, he_id])
            simp [Function.comp, swapTextMap, hti, hte, he_id, swapVals_left, hhM]
          · by_cases htM : t.layer = M
            · have hft : swapTextMap id h.layer element.layer t = { t with layer := element.layer } := by
                rw [swapTextMap, if_neg hti, if_pos ⟨by rw [htM, hhM], hti⟩]
              simp [Function.comp, hft, htM, swapVals_right hLneM]
            · have htl : t.layer ≠ element.layer := fun he =>
                hti (by rw [layer_inj_texts hlay_nd ht he_mem he, he_id])
              have hft : swapTextMap id h.layer element.layer t = t := by
                rw [swapTextMap, if_neg hti, if_neg]
                intro hcon
                exact htM (hhM ▸ hcon.1)
              simp [Function.comp, hft, swapVals_other htl htM]
        · simp [swapVals_other himg_ne_L himg_ne_M]

/-- `moveLayerDown` on a live text element of a well-formed scene: a no-op
when the target already holds the overall minimum layer, and otherwise an
exact pairwise exchange with the unique element holding the greatest
strictly-smaller layer. -/
theorem moveLayerDown_spec {s : DesignerState} {id : String} {element : TextElem}
    (hwf : WellFormed s)
    (hfind : s.textElements.find? (fun t => decide (t.id = id)) = some element) :
    ((∀ l ∈ allLayers s, ¬ l < element.layer) → moveLayerDown s id = s) ∧
    (∀ M, IsGreatest { l : ℤ | l ∈ allLayers s ∧ l < element.layer } M →
      ∃ r₂, r₂ ≠ ElemRef.text id ∧ refLayer s r₂ = some M ∧
        refLayer (moveLayerDown s id) (ElemRef.text id) = some M ∧
        refLayer (moveLayerDown s id) r₂ = some element.layer ∧
        (∀ r₃, r₃ ≠ ElemRef.text id → r₃ ≠ r₂ →
          refLayer (moveLayerDown s id) r₃ = refLayer s r₃) ∧
        allLayers (moveLayerDown s id) = (allLayers s).map (swapVals element.layer M)) := by
  obtain ⟨hid_nd, hlay_nd⟩ := hwf
  obtain ⟨he_mem, he_id⟩ := of_find?_id_eq_some hfind
  constructor
  · intro hno
    apply moveLayerDown_eq_of_sort_nil hfind
    rw [List.filter_eq_nil_iff]
    intro rec hrec
    have hmem : rec.layer ∈ allLayers s := by
      rw [← layerRecords_map_layer]
      exact List.mem_map_of_mem _ hrec
    simpa using hno rec.layer hmem
  · intro M hM
    obtain ⟨⟨hM_mem, hML⟩, hM_great⟩ := hM
    have hM_rec : M ∈ (layerRecords s).map (fun e => e.layer) := by
      rw [layerRecords_map_layer]
      exact hM_mem
    obtain ⟨rec, hrec_mem, hrec_layer⟩ := List.mem_map.mp hM_rec
    have hrec_fil : rec ∈ (layerRecords s).filter (fun e => decide (e.layer < element.layer)) :=
      List.mem_filter.mpr ⟨hrec_mem, by simp [hrec_layer, hML]⟩
    cases hms : ((layerRecords s).filter (fun e => decide (e.layer < element.layer))).insertionSort
        (fun a b => b.layer ≤ a.layer) with
    | nil => exact absurd hms (insertionSort_ne_nil _ (List.ne_nil_of_mem hrec_fil))
    | cons h rest =>
    obtain ⟨hh_fil, hh_max⟩ := insertionSort_head_max (fun e : LayerRecord => e.layer) hms
    have hh_mem : h ∈ layerRecords s := (List.mem_filter.mp hh_fil).1
    have hhL : h.layer < element.layer := by
      have hfp := (List.mem_filter.mp hh_fil).2
      simpa using hfp
    have hh_layer_mem : h.layer ∈ allLayers s := by
      rw [← layerRecords_map_layer]
      exact List.mem_map_of_mem _ hh_mem
    have hhM : h.layer = M :=
      le_antisymm (hM_great ⟨hh_layer_mem, hhL⟩) (hrec_layer ▸ hh_max rec hrec_fil)
    have hMltL : M < element.layer := hhM ▸ hhL
    have hLneM : element.layer ≠ M := ne_of_gt hMltL
    have hres := moveLayerDown_eq_of_sort hfind hms
    have htexts : (moveLayerDown s id).textElements =
        s.textElements.map (swapTextMap id h.layer element.layer) := by
      rw [hres]
    have hf_id : ∀ t, (swapTextMap id h.layer element.layer t).id = t.id :=
      swapTextMap_id id h.layer element.layer
    have htarget : refLayer (moveLayerDown s id) (ElemRef.text id) = some M := by
      rw [refLayer, htexts, find?_map_id_pres hf_id, hfind]
      simp [swapTextMap, he_id, hhM]
    by_cases htype : h.type = "image"
    · -- C3-down: the neighbour is the image
      have hh_eq : h = { id := "image", layer := s.imageLayer, type := "image" } := by
        rcases mem_layerRecords_cases hh_mem with ⟨u, _, hh'⟩ | hh'
        · rw [hh'] at htype
          simp at htype
        · exact hh'
      have hM_img : M = s.imageLayer := by
        rw [← hhM, hh_eq]
      have hnotext : ∀ t ∈ s.textElements, t.layer ≠ M := by
        intro t ht
        rw [hM_img]
        exact image_layer_notin_texts hlay_nd ht
      have himg : (moveLayerDown s id).imageLayer = element.layer := by
        rw [hres]
        simp [htype]
      refine ⟨ElemRef.image, by simp, ?_, htarget, ?_, ?_, ?_⟩
      · rw [refLayer, hM_img]
      · rw [refLayer, himg]
      · intro r₃ h₃₁ h₃₂
        cases r₃ with
        | image => exact absurd rfl h₃₂
        | text w =>
          have hw : ¬ w = id := fun he => h₃₁ (by rw [he])
          rw [refLayer, refLayer, htexts, find?_map_id_pres hf_id]
          cases hfw : s.textElements.find? (fun t => decide (t.id = w)) with
          | none => rfl
          | some v =>
            obtain ⟨hv_mem, hv_id⟩ := of_find?_id_eq_some hfw
            have hfv : swapTextMap id h.layer element.layer v = v := by
              rw [swapTextMap, if_neg (by rw [hv_id]; exact hw), if_neg]
              intro hcon
              exact hnotext v hv_mem (hhM ▸ hcon.1)
            simp [hfv]
      · rw [allLayers, allLayers, htexts, himg, List.map_append, List.map_map, List.map_map]
        congr 1
        · apply List.map_congr_left
          intro t ht
          by_cases hti : t.id = id
          · have hte : t = element := id_inj_texts hid_nd ht he_mem (by rw [hti, he_id])
            simp [Function.comp, swapTextMap, hti, hte, he_id, swapVals_left, hhM]
          · have htl : t.layer ≠ element.layer := fun he =>
              hti (by rw [layer_inj_texts hlay_nd ht he_mem he, he_id])
            have htM : t.layer ≠ M := hnotext t ht
            have hfv : swapTextMap id h.layer element.layer t = t := by
              rw [swapTextMap, if_neg hti, if_neg]
              intro hcon
              exact htM (hhM ▸ hcon.1)
            simp [Function.comp, hfv, swapVals_other htl htM]
        · rw [← hM_img]
          simp [swapVals_right hLneM]
    · -- C3-down: the neighbour is a text element
      obtain ⟨u, hu_mem, hu_eq⟩ := (mem_layerRecords_cases hh_mem).resolve_right
        (fun hh' => htype (by rw [hh']))
      have hu_layer : u.layer = M := by
        rw [← hhM, hu_eq]
      have hu_ne : ¬ u.id = id := by
        intro he
        have hue : u = element := id_inj_texts hid_nd hu_mem he_mem (by rw [he, he_id])
        rw [hue] at hu_layer
        exact absurd (hu_layer ▸ hMltL) (lt_irrefl M)
      have himg : (moveLayerDown s id).imageLayer = s.imageLayer := by
        rw [hres]
        simp [htype]
      have himg_ne_L : s.imageLayer ≠ element.layer :=
        fun he => image_layer_notin_texts hlay_nd he_mem he.symm
      have himg_ne_M : s.imageLayer ≠ M :=
        fun he => image_layer_notin_texts hlay_nd hu_mem (hu_layer.trans he.symm)
      refine ⟨ElemRef.text u.id, by simp [hu_ne], ?_, htarget, ?_, ?_, ?_⟩
      · rw [refLayer, find?_id_eq_some_of_mem hid_nd hu_mem]
        simp [hu_layer]
      · rw [refLayer, htexts, find?_map_id_pres hf_id, find?_id_eq_some_of_mem hid_nd hu_mem]
        have hfu : swapTextMap id h.layer element.layer u = { u with layer := element.layer } := by
          rw [swapTextMap, if_neg hu_ne, if_pos ⟨by rw [hu_layer, hhM], hu_ne⟩]
        simp [hfu]
      · intro r₃ h₃₁ h₃₂
        cases r₃ with
        | image => rw [refLayer, refLayer, himg]
        | text w =>
          have hw : ¬ w = id := fun he => h₃₁ (by rw [he])
          have hwu : ¬ w = u.id := fun he => h₃₂ (by rw [he])
          rw [refLayer, refLayer, htexts, find?_map_id_pres hf_id]
          cases hfw : s.textElements.find? (fun t => decide (t.id = w)) with
          | none => rfl
          | some v =>
            obtain ⟨hv_mem, hv_id⟩ := of_find?_id_eq_some hfw
            have hfv : swapTextMap id h.layer element.layer v = v := by
              rw [swapTextMap, if_neg (by rw [hv_id]; exact hw), if_neg]
              intro hcon
              have hvu : v = u := layer_inj_texts hlay_nd hv_mem hu_mem
                (hcon.1.trans (hhM.trans hu_layer.symm))
              exact hwu (by rw [← hv_id, hvu])
            simp [hfv]
      · rw [allLayers, allLayers, htexts, himg, List.map_append, List.map_map, List.map_map]
        congr 1
        · apply List.map_congr_left
          intro t ht
          by_cases hti : t.id = id
          · have hte : t = element := id_inj_texts hid_nd ht he_mem (by rw [hti, he_id])
            simp [Function.comp, swapTextMap, hti, hte, he_id, swapVals_left, hhM]
          · by_cases htM : t.layer = M
            · have hft : swapTextMap id h.layer element.layer t = { t with layer := element.layer } := by
                rw [swapTextMap, if_neg hti, if_pos ⟨by rw [htM, hhM], hti⟩]
              simp [Function.comp, hft, htM, swapVals_right hLneM]
            · have htl : t.layer ≠ element.layer := fun he =>
                hti (by rw [layer_inj_texts hlay_nd ht he_mem he, he_id])
              have hft : swapTextMap id h.layer element.layer t = t := by
                rw [swapTextMap, if_neg hti, if_neg]
                intro hcon
                exact htM (hhM ▸ hcon.1)
              simp [Function.comp, hft, swapVals_other htl htM]
        · simp [swapVals_other himg_ne_L himg_ne_M]

/-- `moveImageLayerUp` on a well-formed scene: a no-op when the image already
holds the overall maximum layer, and otherwise an exact pairwise exchange
with the unique text element holding the least strictly-greater layer. -/
theorem moveImageLayerUp_spec {s : DesignerState} (hwf : WellFormed s) :
    ((∀ l ∈ allLayers s, ¬ s.imageLayer < l) → moveImageLayerUp s = s) ∧
    (∀ M, IsLeast { l : ℤ | l ∈ allLayers s ∧ s.imageLayer < l } M →
      ∃ r₂, r₂ ≠ ElemRef.image ∧ refLayer s r₂ = some M ∧
        refLayer (moveImageLayerUp s) ElemRef.image = some M ∧
        refLayer (moveImageLayerUp s) r₂ = some s.imageLayer ∧
        (∀ r₃, r₃ ≠ ElemRef.image → r₃ ≠ r₂ →
          refLayer (moveImageLayerUp s) r₃ = refLayer s r₃) ∧
        allLayers (moveImageLayerUp s) = (allLayers s).map (swapVals s.imageLayer M)) := by
  obtain ⟨hid_nd, hlay_nd⟩ := hwf
  constructor
  · intro hno
    apply moveImageLayerUp_eq_of_sort_nil
    rw [List.filter_eq_nil_iff]
    intro p hp
    obtain ⟨t, ht, hpt⟩ := List.mem_map.mp hp
    rw [← hpt]
    have hmem_t : t.layer ∈ allLayers s := by
      rw [allLayers]
      exact List.mem_append_left _ (List.mem_map_of_mem _ ht)
    simpa using hno t.layer hmem_t
  · intro M hM
    obtain ⟨⟨hM_mem, hLM⟩, hM_least⟩ := hM
    have hM_ne_img : M ≠ s.imageLayer := fun he => absurd (he ▸ hLM) (lt_irrefl _)
    have hM_texts : M ∈ s.textElements.map (fun t => t.layer) := by
      rw [allLayers] at hM_mem
      rcases List.mem_append.mp hM_mem with hm | hm
      · exact hm
      · exact absurd (List.mem_singleton.mp hm) hM_ne_img
    obtain ⟨u0, hu0_mem, hu0_layer⟩ := List.mem_map.mp hM_texts
    have hrec_fil : (u0.id, u0.layer) ∈ (s.textElements.map (fun t => (t.id, t.layer))).filter
        (fun e => decide (s.imageLayer < e.2)) :=
      List.mem_filter.mpr ⟨List.mem_map_of_mem _ hu0_mem, by simp [hu0_layer, hLM]⟩
    cases hms : ((s.textElements.map (fun t => (t.id, t.layer))).filter
        (fun e => decide (s.imageLayer < e.2))).insertionSort (fun a b => a.2 ≤ b.2) with
    | nil => exact absurd hms (insertionSort_ne_nil _ (List.ne_nil_of_mem hrec_fil))
    | cons h rest =>
    obtain ⟨hh_fil, hh_min⟩ := insertionSort_head_min (fun e : String × ℤ => e.2) hms
    have hh_mem := (List.mem_filter.mp hh_fil).1
    obtain ⟨u, hu_mem, hu_eq⟩ := List.mem_map.mp hh_mem
    have hhL : s.imageLayer < h.2 := by
      have hfp := (List.mem_filter.mp hh_fil).2
      simpa using hfp
    have hh_layer_mem : h.2 ∈ allLayers s := by
      rw [allLayers]
      apply List.mem_append_left
      rw [← hu_eq]
      exact List.mem_map_of_mem _ hu_mem
    have hmin0 : h.2 ≤ u0.layer := hh_min (u0.id, u0.layer) hrec_fil
    have hhM : h.2 = M :=
      le_antisymm (hu0_layer ▸ hmin0) (hM_least ⟨hh_layer_mem, hhL⟩)
    have hLneM : s.imageLayer ≠ M := ne_of_lt (hhM ▸ hhL)
    have hu_layer : u.layer = M := by
      have hsnd := congrArg Prod.snd hu_eq
      simpa [hhM] using hsnd
    have hh1 : h.1 = u.id := by
      have hfst := congrArg Prod.fst hu_eq
      simpa using hfst.symm
    have hres := moveImageLayerUp_eq_of_sort hms
    have htexts : (moveImageLayerUp s).textElements =
        s.textElements.map (imageSwapMap h.1 s.imageLayer) := by
      rw [hres]
    have himg : (moveImageLayerUp s).imageLayer = h.2 := by
      rw [hres]
    have hg_id : ∀ t, (imageSwapMap h.1 s.imageLayer t).id = t.id :=
      imageSwapMap_id h.1 s.imageLayer
    have hui : u.id = h.1 := hh1.symm
    refine ⟨ElemRef.text u.id, by simp, ?_, ?_, ?_, ?_, ?_⟩
    · rw [refLayer, find?_id_eq_some_of_mem hid_nd hu_mem]
      simp [hu_layer]
    · rw [refLayer, himg, hhM]
    · rw [refLayer, htexts, find?_map_id_pres hg_id, find?_id_eq_some_of_mem hid_nd hu_mem]
      have hgu : imageSwapMap h.1 s.imageLayer u = { u with layer := s.imageLayer } := by
        rw [imageSwapMap, if_pos hui]
      simp [hgu]
    · intro r₃ h₃₁ h₃₂
      cases r₃ with
      | image => exact absurd rfl h₃₁
      | text w =>
        have hwu : ¬ w = u.id := fun he => h₃₂ (by rw [he])
        rw [refLayer, refLayer, htexts, find?_map_id_pres hg_id]
        cases hfw : s.textElements.find? (fun t => decide (t.id = w)) with
        | none => rfl
        | some v =>
          obtain ⟨hv_mem, hv_id⟩ := of_find?_id_eq_some hfw
          have hgv : imageSwapMap h.1 s.imageLayer v = v := by
            rw [imageSwapMap, if_neg]
            rw [hv_id, ← hui]
            exact hwu
          simp [hgv]
    · rw [allLayers, allLayers, htexts, himg, hhM, List.map_append, List.map_map, List.map_map]
      congr 1
      · apply List.map_congr_left
        intro t ht
        by_cases hti : t.id = h.1
        · have htu : t = u := id_inj_texts hid_nd ht hu_mem (by rw [hti, hh1])
          simp [Function.comp, imageSwapMap, hti, htu, hui, hu_layer, swapVals_right hLneM]
        · have hgt : imageSwapMap h.1 s.imageLayer t = t := by
            rw [imageSwapMap, if_neg hti]
          have htL : t.layer ≠ s.imageLayer := image_layer_notin_texts hlay_nd ht
          have htM : t.layer ≠ M := by
            intro he
            have htu : t = u := layer_inj_texts hlay_nd ht hu_mem (he.trans hu_layer.symm)
            exact hti (by rw [htu, hui])
          simp [Function.comp, hgt, swapVals_other htL htM]
      · simp [swapVals_left]

/-- `moveImageLayerDown` on a well-formed scene: a no-op when the image
already holds the overall minimum layer, and otherwise an exact pairwise
exchange with the unique text element holding the greatest strictly-smaller
layer. -/
theorem moveImageLayerDown_spec {s : DesignerState} (hwf : WellFormed s) :
    ((∀ l ∈ allLayers s, ¬ l < s.imageLayer) → moveImageLayerDown s = s) ∧
    (∀ M, IsGreatest { l : ℤ | l ∈ allLayers s ∧ l < s.imageLayer } M →
      ∃ r₂, r₂ ≠ ElemRef.image ∧ refLayer s r₂ = some M ∧
        refLayer (moveImageLayerDown s) ElemRef.image = some M ∧
        refLayer (moveImageLayerDown s) r₂ = some s.imageLayer ∧
        (∀ r₃, r₃ ≠ ElemRef.image → r₃ ≠ r₂ →
          refLayer (moveImageLayerDown s) r₃ = refLayer s r₃) ∧
        allLayers (moveImageLayerDown s) = (allLayers s).map (swapVals s.imageLayer M)) := by
  obtain ⟨hid_nd, hlay_nd⟩ := hwf
  constructor
  · intro hno
    apply moveImageLayerDown_eq_of_sort_nil
    rw [List.filter_eq_nil_iff]
    intro p hp
    obtain ⟨t, ht, hpt⟩ := List.mem_map.mp hp
    rw [← hpt]
    have hmem_t : t.layer ∈ allLayers s := by
      rw [allLayers]
      exact List.mem_append_left _ (List.mem_map_of_mem _ ht)
    simpa using hno t.layer hmem_t
  · intro M hM
    obtain ⟨⟨hM_mem, hML⟩, hM_great⟩ := hM
    have hM_ne_img : M ≠ s.imageLayer := ne_of_lt hML
    have hM_texts : M ∈ s.textElements.map (fun t => t.layer) := by
      rw [allLayers] at hM_mem
      rcases List.mem_append.mp hM_mem with hm | hm
      · exact hm
      · exact absurd (List.mem_singleton.mp hm) hM_ne_img
    obtain ⟨u0, hu0_mem, hu0_layer⟩ := List.mem_map.mp hM_texts
    have hrec_fil : (u0.id, u0.layer) ∈ (s.textElements.map (fun t => (t.id, t.layer))).filter
        (fun e => decide (e.2 < s.imageLayer)) :=
      List.mem_filter.mpr ⟨List.mem_map_of_mem _ hu0_mem, by simp [hu0_layer, hML]⟩
    cases hms : ((s.textElements.map (fun t => (t.id, t.layer))).filter
        (fun e => decide (e.2 < s.imageLayer))).insertionSort (fun a b => b.2 ≤ a.2) with
    | nil => exact absurd hms (insertionSort_ne_nil _ (List.ne_nil_of_mem hrec_fil))
    | cons h rest =>
    obtain ⟨hh_fil, hh_max⟩ := insertionSort_head_max (fun e : String × ℤ => e.2) hms
    have hh_mem := (List.mem_filter.mp hh_fil).1
    obtain ⟨u, hu_mem, hu_eq⟩ := List.mem_map.mp hh_mem
    have hhL : h.2 < s.imageLayer := by
      have hfp := (List.mem_filter.mp hh_fil).2
      simpa using hfp
    have hh_layer_mem : h.2 ∈ allLayers s := by
      rw [allLayers]
      apply List.mem_append_left
      rw [← hu_eq]
      exact List.mem_map_of_mem _ hu_mem
    have hmax0 : u0.layer ≤ h.2 := hh_max (u0.id, u0.layer) hrec_fil
    have hhM : h.2 = M :=
      le_antisymm (hM_great ⟨hh_layer_mem, hhL⟩) (hu0_layer ▸ hmax0)
    have hLneM : s.imageLayer ≠ M := ne_of_gt (hhM ▸ hhL)
    have hu_layer : u.layer = M := by
      have hsnd := congrArg Prod.snd hu_eq
      simpa [hhM] using hsnd
    have hh1 : h.1 = u.id := by
      have hfst := congrArg Prod.fst hu_eq
      simpa using hfst.symm
    have hres := moveImageLayerDown_eq_of_sort hms
    have htexts : (moveImageLayerDown s).textElements =
        s.textElements.map (imageSwapMap h.1 s.imageLayer) := by
      rw [hres]
    have himg : (moveImageLayerDown s).imageLayer = h.2 := by
      rw [hres]
    have hg_id : ∀ t, (imageSwapMap h.1 s.imageLayer t).id = t.id :=
      imageSwapMap_id h.1 s.imageLayer
    have hui : u.id = h.1 := hh1.symm
    refine ⟨ElemRef.text u.id, by simp, ?_, ?_, ?_, ?_, ?_⟩
    · rw [refLayer, find?_id_eq_some_of_mem hid_nd hu_mem]
      simp [hu_layer]
    · rw [refLayer, himg, hhM]
    · rw [refLayer, htexts, find?_map_id_pres hg_id, find?_id_eq_some_of_mem hid_nd hu_mem]
      have hgu : imageSwapMap h.1 s.imageLayer u = { u with layer := s.imageLayer } := by
        rw [imageSwapMap, if_pos hui]
      simp [hgu]
    · intro r₃ h₃₁ h₃₂
      cases r₃ with
      | image => exact absurd rfl h₃₁
      | text w =>
        have hwu : ¬ w = u.id := fun he => h₃₂ (by rw [he])
        rw [refLayer, refLayer, htexts, find?_map_id_pres hg_id]
        cases hfw : s.textElements.find? (fun t => decide (t.id = w)) with
        | none => rfl
        | some v =>
          obtain ⟨hv_mem, hv_id⟩ := of_find?_id_eq_some hfw
          have hgv : imageSwapMap h.1 s.imageLayer v = v := by
            rw [imageSwapMap, if_neg]
            rw [hv_id, ← hui]
            exact hwu
          simp [hgv]
    · rw [allLayers, allLayers, htexts, himg, hhM, List.map_append, List.map_map, List.map_map]
      congr 1
      · apply List.map_congr_left
        intro t ht
        by_cases hti : t.id = h.1
        · have htu : t = u := id_inj_texts hid_nd ht hu_mem (by rw [hti, hh1])
          simp [Function.comp, imageSwapMap, hti, htu, hui, hu_layer, swapVals_right hLneM]
        · have hgt : imageSwapMap h.1 s.imageLayer t = t := by
            rw [imageSwapMap, if_neg hti]
          have htL : t.layer ≠ s.imageLayer := image_layer_notin_texts hlay_nd ht
          have htM : t.layer ≠ M := by
            intro he
            have htu : t = u := layer_inj_texts hlay_nd ht hu_mem (he.trans hu_layer.symm)
            exact hti (by rw [htu, hui])
          simp [Function.comp, hgt, swapVals_other htL htM]
      · simp [swapVals_left]

/-- A layer held by a live element occurs among the scene's layer values. -/
theorem refLayer_mem_allLayers {s : DesignerState} {r : ElemRef} {L : ℤ}
    (hr : refLayer s r = some L) : L ∈ allLayers s := by
  cases r with
  | text id =>
    rw [refLayer, Option.map_eq_some'] at hr
    obtain ⟨e, hfind, he_layer⟩ := hr
    rw [allLayers, ← he_layer]
    exact List.mem_append_left _ (List.mem_map_of_mem _ (List.mem_of_find?_eq_some hfind))
  | image =>
    rw [refLayer, Option.some_inj] at hr
    rw [allLayers, ← hr]
    exact List.mem_append_right _ (List.mem_singleton_self _)

/-- The UI-level "move up" on any live element reference: no-op at the
maximum, otherwise an exact pairwise exchange with the least-greater holder.
-/
theorem moveUp_spec {s : DesignerState} {r : ElemRef} {L : ℤ} (hwf : WellFormed s)
    (hr : refLayer s r = some L) :
    ((∀ l ∈ allLayers s, ¬ L < l) → moveUp s r = s) ∧
    (∀ M, IsLeast { l : ℤ | l ∈ allLayers s ∧ L < l } M →
      ∃ r₂, r₂ ≠ r ∧ refLayer s r₂ = some M ∧ refLayer (moveUp s r) r = some M ∧
        refLayer (moveUp s r) r₂ = some L ∧
        (∀ r₃, r₃ ≠ r → r₃ ≠ r₂ → refLayer (moveUp s r) r₃ = refLayer s r₃) ∧
        allLayers (moveUp s r) = (allLayers s).map (swapVals L M)) := by
  cases r with
  | text id =>
    rw [refLayer, Option.map_eq_some'] at hr
    obtain ⟨e, hfind, he_layer⟩ := hr
    subst he_layer
    exact moveLayerUp_spec hwf hfind
  | image =>
    rw [refLayer, Option.some_inj] at hr
    subst hr
    exact moveImageLayerUp_spec hwf

/-- The UI-level "move down" on any live element reference: no-op at the
minimum, otherwise an exact pairwise exchange with the greatest-smaller
holder. -/
theorem moveDown_spec {s : DesignerState} {r : ElemRef} {L : ℤ} (hwf : WellFormed s)
    (hr : refLayer s r = some L) :
    ((∀ l ∈ allLayers s, ¬ l < L) → moveDown s r = s) ∧
    (∀ M, IsGreatest { l : ℤ | l ∈ allLayers s ∧ l < L } M →
      ∃ r₂, r₂ ≠ r ∧ refLayer s r₂ = some M ∧ refLayer (moveDown s r) r = some M ∧
        refLayer (moveDown s r) r₂ = some L ∧
        (∀ r₃, r₃ ≠ r → r₃ ≠ r₂ → refLayer (moveDown s r) r₃ = refLayer s r₃) ∧
        allLayers (moveDown s r) = (allLayers s).map (swapVals L M)) := by
  cases r with
  | text id =>
    rw [refLayer, Option.map_eq_some'] at hr
    obtain ⟨e, hfind, he_layer⟩ := hr
    subst he_layer
    exact moveLayerDown_spec hwf hfind
  | image =>
    rw [refLayer, Option.some_inj] at hr
    subst hr
    exact moveImageLayerDown_spec hwf

/-- Claim C3: for every live element of a well-formed scene, "move up" finds
the element (image included) holding the smallest layer strictly greater
than the target's; with none it leaves the scene untouched, and otherwise
exactly the target and that neighbour exchange layer values, preserving the
multiset of layers; symmetrically for "move down". -/
theorem c3_move_swap_spec (s : DesignerState) (r : ElemRef) (hwf : WellFormed s)
    (hlive : (refLayer s r).isSome = true) :
    SwapUpSpec s r (moveUp s r) ∧ SwapDownSpec s r (moveDown s r) := by
  obtain ⟨L, hr⟩ := Option.isSome_iff_exists.mp hlive
  obtain ⟨hids, hlays⟩ := hwf
  constructor
  · intro L' hr'
    have hL' : L' = L := by
      rw [hr] at hr'
      exact (Option.some_inj.mp hr').symm
    subst hL'
    have hup := moveUp_spec ⟨hids, hlays⟩ hr
    refine ⟨hup.1, ?_⟩
    intro M hM
    obtain ⟨r₂, h1, h2, h3, h4, h5, h6⟩ := hup.2 M hM
    obtain ⟨⟨hMm, _⟩, _⟩ := hM
    refine ⟨r₂, h1, h2, h3, h4, h5, ?_⟩
    rw [h6]
    exact perm_map_swapVals hlays (refLayer_mem_allLayers hr) hMm
  · intro L' hr'
    have hL' : L' = L := by
      rw [hr] at hr'
      exact (Option.some_inj.mp hr').symm
    subst hL'
    have hdn := moveDown_spec ⟨hids, hlays⟩ hr
    refine ⟨hdn.1, ?_⟩
    intro M hM
    obtain ⟨r₂, h1, h2, h3, h4, h5, h6⟩ := hdn.2 M hM
    obtain ⟨⟨hMm, _⟩, _⟩ := hM
    refine ⟨r₂, h1, h2, h3, h4, h5, ?_⟩
    rw [h6]
    exact perm_map_swapVals hlays (refLayer_mem_allLayers hr) hMm

/-- Witness for C3 at a concrete well-formed scene and live target. -/
theorem c3_witness :
    SwapUpSpec sceneA (ElemRef.text "a") (moveUp sceneA (ElemRef.text "a")) ∧
    SwapDownSpec sceneA (ElemRef.text "a") (moveDown sceneA (ElemRef.text "a")) :=
  c3_move_swap_spec sceneA (ElemRef.text "a") (by decide) (by decide)

/-- A finite nonempty set of layers strictly above `L` has a least element. -/
theorem exists_least_gt {l : List ℤ} {L : ℤ} (hex : ∃ x ∈ l, L < x) :
    ∃ M, IsLeast { v : ℤ | v ∈ l ∧ L < v } M := by
  obtain ⟨x, hx_mem, hx_lt⟩ := hex
  have hx_T : x ∈ l.toFinset.filter (fun v => L < v) := by
    rw [Finset.mem_filter, List.mem_toFinset]
    exact ⟨hx_mem, hx_lt⟩
  have hTne : (l.toFinset.filter (fun v => L < v)).Nonempty := ⟨x, hx_T⟩
  refine ⟨(l.toFinset.filter (fun v => L < v)).min' hTne, ⟨?_, ?_⟩⟩
  · have hmem := (l.toFinset.filter (fun v => L < v)).min'_mem hTne
    rw [Finset.mem_filter, List.mem_toFinset] at hmem
    exact hmem
  · intro b hb
    apply Finset.min'_le
    rw [Finset.mem_filter, List.mem_toFinset]
    exact hb

/-- Moving a text element up never changes the list of element ids. -/
theorem moveLayerUp_ids (s : DesignerState) (id : String) :
    (moveLayerUp s id).textElements.map (fun t => t.id) =
      s.textElements.map (fun t => t.id) := by
  cases hfind : s.textElements.find? (fun t => decide (t.id = id)) with
  | none => simp [moveLayerUp, hfind]
  | some e =>
    cases hms : ((layerRecords s).filter (fun rec => decide (e.layer < rec.layer))).insertionSort
        (fun a b => a.layer ≤ b.layer) with
    | nil =>
      have hnil : (layerRecords s).filter (fun rec => decide (e.layer < rec.layer)) = [] := by
        by_contra hne
        exact insertionSort_ne_nil _ hne hms
      rw [moveLayerUp_eq_of_sort_nil hfind hnil]
    | cons h rest =>
      rw [moveLayerUp_eq_of_sort hfind hms, List.map_map]
      apply List.map_congr_left
      intro t _
      simp [Function.comp, swapTextMap_id]

/-- Moving a text element down never changes the list of element ids. -/
theorem moveLayerDown_ids (s : DesignerState) (id : String) :
    (moveLayerDown s id).textElements.map (fun t => t.id) =
      s.textElements.map (fun t => t.id) := by
  cases hfind : s.textElements.find? (fun t => decide (t.id = id)) with
  | none => simp [moveLayerDown, hfind]
  | some e =>
    cases hms : ((layerRecords s).filter (fun rec => decide (rec.layer < e.layer))).insertionSort
        (fun a b => b.layer ≤ a.layer) with
    | nil =>
      have hnil : (layerRecords s).filter (fun rec => decide (rec.layer < e.layer)) = [] := by
        by_contra hne
        exact insertionSort_ne_nil _ hne hms
      rw [moveLayerDown_eq_of_sort_nil hfind hnil]
    | cons h rest =>
      rw [moveLayerDown_eq_of_sort hfind hms, List.map_map]
      apply List.map_congr_left
      intro t _
      simp [Function.comp, swapTextMap_id]

/-- Moving the image up never changes the list of text element ids. -/
theorem moveImageLayerUp_ids (s : DesignerState) :
    (moveImageLayerUp s).textElements.map (fun t => t.id) =
      s.textElements.map (fun t => t.id) := by
  cases hms : ((s.textElements.map (fun t => (t.id, t.layer))).filter
      (fun e => decide (s.imageLayer < e.2))).insertionSort (fun a b => a.2 ≤ b.2) with
  | nil =>
    have hnil : (s.textElements.map (fun t => (t.id, t.layer))).filter
        (fun e => decide (s.imageLayer < e.2)) = [] := by
      by_contra hne
      exact insertionSort_ne_nil _ hne hms
    rw [moveImageLayerUp_eq_of_sort_nil hnil]
  | cons h rest =>
    rw [moveImageLayerUp_eq_of_sort hms, List.map_map]
    apply List.map_congr_left
    intro t _
    simp [Function.comp, imageSwapMap_id]

/-- Moving the image down never changes the list of text element ids. -/
theorem moveImageLayerDown_ids (s : DesignerState) :
    (moveImageLayerDown s).textElements.map (fun t => t.id) =
      s.textElements.map (fun t => t.id) := by
  cases hms : ((s.textElements.map (fun t => (t.id, t.layer))).filter
      (fun e => decide (e.2 < s.imageLayer))).insertionSort (fun a b => b.2 ≤ a.2) with
  | nil =>
    have hnil : (s.textElements.map (fun t => (t.id, t.layer))).filter
        (fun e => decide (e.2 < s.imageLayer)) = [] := by
      by_contra hne
      exact insertionSort_ne_nil _ hne hms
    rw [moveImageLayerDown_eq_of_sort_nil hnil]
  | cons h rest =>
    rw [moveImageLayerDown_eq_of_sort hms, List.map_map]
    apply List.map_congr_left
    intro t _
    simp [Function.comp, imageSwapMap_id]

/-- Claim C4 as stated is false on the code: with one text element above the
image (layers 1 and 0, pairwise distinct), `moveUp` on the text is a no-op
but the following `moveDown` swaps it with the image, so the layer
assignment is not restored. -/
theorem c4_counterexample :
    (allLayers sceneMaxText).Nodup ∧
    refLayer (moveDown (moveUp sceneMaxText (ElemRef.text "t1")) (ElemRef.text "t1"))
        (ElemRef.text "t1") ≠ refLayer sceneMaxText (ElemRef.text "t1") := by
  decide

/-- Claim C4, amended: on a well-formed scene, if some element lies strictly
above the target (so `moveUp` actually swaps), then `moveUp` followed by
`moveDown` on the same element restores every element's layer. -/
theorem c4_move_up_down_restores (s : DesignerState) (r : ElemRef) (L : ℤ)
    (hwf : WellFormed s) (hr : refLayer s r = some L)
    (hnotmax : ∃ l ∈ allLayers s, L < l) :
    ∀ r₃, refLayer (moveDown (moveUp s r) r) r₃ = refLayer s r₃ := by
  obtain ⟨hids, hlays⟩ := hwf
  obtain ⟨M, hM⟩ := exists_least_gt hnotmax
  obtain ⟨⟨hMm, hLM⟩, hMlb⟩ := hM
  obtain ⟨r₂, hr₂ne, hr₂s, hupr, hupr₂, hupo, hupall⟩ :=
    (moveUp_spec ⟨hids, hlays⟩ hr).2 M ⟨⟨hMm, hLM⟩, hMlb⟩
  set t := moveUp s r with ht_def
  have hperm : (allLayers t).Perm (allLayers s) := by
    rw [hupall]
    exact perm_map_swapVals hlays (refLayer_mem_allLayers hr) hMm
  have htlays : (allLayers t).Nodup := hperm.nodup_iff.mpr hlays
  have htids : (t.textElements.map (fun e => e.id)).Nodup := by
    rw [ht_def]
    cases r with
    | text id =>
      rw [show moveUp s (ElemRef.text id) = moveLayerUp s id from rfl, moveLayerUp_ids]
      exact hids
    | image =>
      rw [show moveUp s ElemRef.image = moveImageLayerUp s from rfl, moveImageLayerUp_ids]
      exact hids
  have hwft : WellFormed t := ⟨htids, htlays⟩
  have hLmem_t : L ∈ allLayers t := hperm.mem_iff.mpr (refLayer_mem_allLayers hr)
  have hgreat : IsGreatest { l : ℤ | l ∈ allLayers t ∧ l < M } L := by
    refine ⟨⟨hLmem_t, hLM⟩, ?_⟩
    intro b hb
    obtain ⟨hb_mem, hb_lt⟩ := hb
    by_contra hle
    push_neg at hle
    have hb_s : b ∈ allLayers s := hperm.mem_iff.mp hb_mem
    exact absurd (hMlb ⟨hb_s, hle⟩) (not_le.mpr hb_lt)
  obtain ⟨r₄, hr₄ne, hr₄t, hdnr, hdnr₄, hdno, hdnall⟩ :=
    (moveDown_spec hwft hupr).2 L hgreat
  have hr₄eq : r₄ = r₂ := refLayer_inj hwft hr₄t hupr₂
  intro r₃
  by_cases h3r : r₃ = r
  · rw [h3r, hdnr, hr]
  · by_cases h3r₂ : r₃ = r₂
    · rw [h3r₂, ← hr₄eq, hdnr₄, hr₄eq, hr₂s]
    · rw [hdno r₃ h3r (fun he => h3r₂ (he.trans hr₄eq)), hupo r₃ h3r h3r₂]

/-- Witness for the amended C4 at a concrete scene: text "a" (layer 0) moves
up past the image (layer 1) and back; here checking that text "b" kept its
layer. -/
theorem c4_witness :
    refLayer (moveDown (moveUp sceneA (ElemRef.text "a")) (ElemRef.text "a"))
        (ElemRef.text "b") = refLayer sceneA (ElemRef.text "b") :=
  c4_move_up_down_restores sceneA (ElemRef.text "a") 0 (by decide) (by decide) (by decide)
    (ElemRef.text "b")

end ArtBoard
